import Mathlib

/-!
Shallow embedding of the FRED panel pipeline of src/src/pull_fred.py.

Timestamps are modelled as natural numbers in YYYYMMDD form (this encoding is
strictly monotone in the calendar order, which is all the code uses).  Values
are rationals, with missing observations (NaN) modelled as none.  A pandas
DataFrame is modelled as a Frame: an index list together with an association
list of named columns, each column positionally aligned with the index.

The network fetch performed by fred series csv is modelled as a parameter
fetch : String -> List (Nat x Option Rat) giving, for each requested series
id, the parsed (date, value) observations of the response.  pull_fred is then
a pure function of that parameter, mirroring the source line by line from the
concat at line 112 to the drop at line 159.
-/

namespace PullFred

/-- A nullable numeric cell, as in a pandas float column where NaN is none. -/
abbrev Val := Option ℚ

/-- A pandas DataFrame: an index of timestamps and named columns positionally
aligned with the index. -/
structure Frame where
  index : List Nat
  cols  : List (String × List Val)
deriving Repr, DecidableEq

/-- The list of column names, in column order. -/
def Frame.colIds (f : Frame) : List String := f.cols.map Prod.fst

/-- The named column of a frame ([] when the name is absent). -/
def Frame.col (f : Frame) (c : String) : List Val := (f.cols.lookup c).getD []

/-- Alignment invariant: every column has exactly one entry per index row. -/
def Frame.WF (f : Frame) : Prop := ∀ p ∈ f.cols, p.2.length = f.index.length

/-- The series_to_pull dictionary keys of pull_fred.py (lines 16-41), in
insertion order. -/
def series_to_pull : List String :=
  ["GDP", "CPIAUCNS", "GDPC1", "DPCREDIT", "EFFR", "OBFR", "SOFR", "IORR",
   "IOER", "IORB", "DFEDTARU", "DFEDTARL", "WALCL", "TOTRESNS", "TREAST",
   "CURRCIR", "GFDEBTN", "WTREGEN", "RRPONTSYAWARD", "RRPONTSYD", "RPONTSYD",
   "WSDONTL"]

/-- manual_ONRRP_cntypty_limits (lines 49-58) with dates in YYYYMMDD form, in
dict insertion order. -/
def manual_ONRRP_cntypty_limits : List (Nat × ℚ) :=
  [(20130922, 0), (20130923, 1), (20140129, 3), (20140203, 7),
   (20140221, 10), (20140711, 30), (20210317, 80), (20210603, 160)]

/-- millions_to_billions (line 118). -/
def millions_to_billions : List String := ["TREAST", "GFDEBTN", "WALCL", "WSDONTL"]

/-- forward_fill (lines 125-135): the columns forward-filled when ffill=True. -/
def forward_fill : List String :=
  ["OBFR", "DPCREDIT", "TREAST", "TOTRESNS", "WTREGEN", "WALCL", "CURRCIR",
   "RRPONTSYAWARD", "WSDONTL"]

/-- Insert a timestamp into a sorted duplicate-free list, keeping it sorted
and duplicate-free (used to build the union index of pd.concat + sort_index). -/
def insUnique (t : Nat) : List Nat → List Nat
  | [] => [t]
  | h :: tl =>
    if t < h then t :: h :: tl
    else if t = h then h :: tl
    else h :: insUnique t tl

/-- All observation dates across the pulled series, with multiplicity. -/
def allDates (fetch : String → List (Nat × Val)) : List Nat :=
  series_to_pull.foldr (fun c acc => (fetch c).map Prod.fst ++ acc) []

/-- The sorted deduplicated union of the series indices: the index produced by
pd.concat(series_list, axis=1).sort_index() at line 112. -/
def unionIdx (fetch : String → List (Nat × Val)) : List Nat :=
  (allDates fetch).foldr insUnique []

/-- Align one raw series onto an index: the value at each index timestamp, or
none where the series has no observation (outer-join semantics of concat). -/
def reindex (idx : List Nat) (s : List (Nat × Val)) : List Val :=
  idx.map (fun t => (s.lookup t).getD none)

/-- The DataFrame built at line 112: every series of series_to_pull aligned
onto the sorted union index. -/
def concatFrame (fetch : String → List (Nat × Val)) : Frame :=
  ⟨unionIdx fetch, series_to_pull.map (fun c => (c, reindex (unionIdx fetch) (fetch c)))⟩

/-- Keep the entries of a list whose positional mask bit is true. -/
def maskFilter : List Bool → List α → List α
  | [], _ => []
  | _, [] => []
  | b :: bs, x :: xs => if b then x :: maskFilter bs xs else maskFilter bs xs

/-- df.loc[start:end] at line 115: keep rows with start <= t <= end
(label slicing on a sorted index is inclusive on both ends). -/
def clipFrame (s e : Nat) (f : Frame) : Frame :=
  let mask := f.index.map (fun t => decide (s ≤ t) && decide (t ≤ e))
  ⟨maskFilter mask f.index, f.cols.map (fun p => (p.1, maskFilter mask p.2))⟩

/-- Replace the named column by a function of its old contents, leaving all
other columns and the index unchanged. -/
def transCol (c : String) (g : List Val → List Val) (f : Frame) : Frame :=
  ⟨f.index, f.cols.map (fun p => (p.1, if p.1 = c then g p.2 else p.2))⟩

/-- Apply a cellwise function to the named column (df[c] = df[c].map(g)). -/
def mapCol (c : String) (g : Val → Val) (f : Frame) : Frame :=
  transCol c (List.map g) f

/-- Forward fill: each cell becomes the last preceding non-null value, the
accumulator carrying the running last observation. -/
def ffillAux (last : Val) : List Val → List Val
  | [] => []
  | none :: tl => last :: ffillAux last tl
  | some v :: tl => some v :: ffillAux (some v) tl

/-- pandas Series.ffill: nulls replaced by the most recent preceding non-null
value; a leading run of nulls stays null. -/
def ffillList (xs : List Val) : List Val := ffillAux none xs

/-- df[c] = df[c].ffill(). -/
def ffillCol (c : String) (f : Frame) : Frame := transCol c ffillList f

/-- df[c] = v: replace the column when the name exists, else append it as the
last column (pandas column assignment). -/
def setCol (c : String) (v : List Val) (f : Frame) : Frame :=
  if c ∈ f.colIds then ⟨f.index, f.cols.map (fun p => (p.1, if p.1 = c then v else p.2))⟩
  else ⟨f.index, f.cols ++ [(c, v)]⟩

/-- Set to v every position of a column whose index label equals t. -/
def setWhere (idx : List Nat) (t : Nat) (v : ℚ) (col : List Val) : List Val :=
  (idx.zip col).map (fun p => if p.1 = t then some v else p.2)

/-- df.loc[t, c] = v (lines 150, 155): when label t is present, set that cell
of column c; when absent, enlarge — append a new row labelled t at the end,
null in every column except v in column c.  (The source always creates column
c just before these assignments, so the missing-column case of pandas
enlargement never arises and is not modelled.) -/
def locSet (t : Nat) (c : String) (v : ℚ) (f : Frame) : Frame :=
  if t ∈ f.index then transCol c (setWhere f.index t v) f
  else ⟨f.index ++ [t],
        f.cols.map (fun p => (p.1, p.2 ++ [if p.1 = c then some v else none]))⟩

/-- df.drop(columns=cs, errors="ignore") at line 159. -/
def dropCols (cs : List String) (f : Frame) : Frame :=
  ⟨f.index, f.cols.filter (fun p => !(cs.contains p.1))⟩

/-- Lines 117-121: divide each column of millions_to_billions by 1000, guarded
by membership of the column in the frame. -/
def unitStep (f : Frame) : Frame :=
  millions_to_billions.foldl
    (fun g c => if c ∈ g.colIds then mapCol c (Option.map (fun q => q / 1000)) g else g) f

/-- Lines 123-138: when ffill is set, forward fill each column of the
forward_fill list, guarded by membership of the column in the frame. -/
def fillStep (ffill : Bool) (f : Frame) : Frame :=
  if ffill then
    forward_fill.foldl (fun g c => if c ∈ g.colIds then ffillCol c g else g) f
  else f

/-- Series.fillna of line 142 cellwise: the first value, or the second where
the first is null. -/
def coalesce : Val → Val → Val
  | some v, _ => some v
  | none, b => b

/-- Lines 140-144: Gen_IORB = IORB filled with IOER where both columns exist,
else an all-null column. -/
def genStep (f : Frame) : Frame :=
  if "IORB" ∈ f.colIds ∧ "IOER" ∈ f.colIds then
    setCol "Gen_IORB" (List.zipWith coalesce (f.col "IORB") (f.col "IOER")) f
  else
    setCol "Gen_IORB" (List.replicate f.index.length none) f

/-- Lines 146-151: create ONRRP_CTPY_LIMIT as all-null, loc-set each manual
limit in dict order, then forward fill the column. -/
def onrrpStep (f : Frame) : Frame :=
  ffillCol "ONRRP_CTPY_LIMIT"
    (manual_ONRRP_cntypty_limits.foldl
      (fun g p => locSet p.1 "ONRRP_CTPY_LIMIT" p.2 g)
      (setCol "ONRRP_CTPY_LIMIT" (List.replicate f.index.length none) f))

/-- Lines 153-156: create ONRP_AGG_LIMIT as all-null, loc-set 500 at
2021-07-28, then forward fill the column. -/
def onrpStep (f : Frame) : Frame :=
  ffillCol "ONRP_AGG_LIMIT"
    (locSet 20210728 "ONRP_AGG_LIMIT" 500
      (setCol "ONRP_AGG_LIMIT" (List.replicate f.index.length none) f))

/-- pull_fred (lines 100-160) as a function of the fetched raw data, the date
window and the ffill flag (default True, as in the source signature). -/
def pull_fred (fetch : String → List (Nat × Val)) (start_date end_date : Nat)
    (ffill : Bool := true) : Frame :=
  dropCols ["IORR", "IOER", "IORB"]
    (onrpStep (onrrpStep (genStep (fillStep ffill
      (unitStep (clipFrame start_date end_date (concatFrame fetch)))))))

/-! ### Derived closed forms used in theorem statements

The following definitions give, per column, the value that the pipeline is
proved (below) to compute.  They are derived forms for stating theorems; the
authoritative model is pull_fred above. -/

/-- The clipped index: timestamps of a list within [s, e]. -/
def clipList (s e : Nat) (l : List Nat) : List Nat :=
  l.filter (fun t => decide (s ≤ t) && decide (t ≤ e))

/-- The index of the frame right after window clipping at line 115. -/
def clipIdx (fetch : String → List (Nat × Val)) (s e : Nat) : List Nat :=
  clipList s e (unionIdx fetch)

/-- A pulled column aligned onto the clipped index. -/
def rawColM (fetch : String → List (Nat × Val)) (s e : Nat) (c : String) : List Val :=
  reindex (clipIdx fetch s e) (fetch c)

/-- A pulled column after the millions-to-billions conversion of lines 117-121. -/
def convColM (fetch : String → List (Nat × Val)) (s e : Nat) (c : String) : List Val :=
  if c ∈ millions_to_billions then
    (rawColM fetch s e c).map (Option.map (fun q => q / 1000))
  else rawColM fetch s e c

/-- A pulled column after the conditional forward fill of lines 123-138. -/
def fillColM (b : Bool) (fetch : String → List (Nat × Val)) (s e : Nat) (c : String) : List Val :=
  if b = true then
    (if c ∈ forward_fill then ffillList (convColM fetch s e c) else convColM fetch s e c)
  else convColM fetch s e c

/-- The Gen_IORB column of line 142: IORB coalesced with IOER, row-wise. -/
def genColM (b : Bool) (fetch : String → List (Nat × Val)) (s e : Nat) : List Val :=
  List.zipWith coalesce (fillColM b fetch s e "IORB") (fillColM b fetch s e "IOER")

/-- State evolution of a run of df.loc[t, c] = v assignments on one column:
the state is the frame index together with that column; an in-index date sets
the labelled cell, an absent date appends a row. -/
def overrideSim (sets : List (Nat × ℚ)) (st : List Nat × List Val) : List Nat × List Val :=
  sets.foldl
    (fun st p =>
      if p.1 ∈ st.1 then (st.1, setWhere st.1 p.1 p.2 st.2)
      else (st.1 ++ [p.1], st.2 ++ [some p.2]))
    st

/-- Index and pre-fill column of ONRRP_CTPY_LIMIT after the loc-assignments of
lines 148-150. -/
def onrrpSim (fetch : String → List (Nat × Val)) (s e : Nat) : List Nat × List Val :=
  overrideSim manual_ONRRP_cntypty_limits
    (clipIdx fetch s e, List.replicate (clipIdx fetch s e).length none)

/-- The frame index after the ONRRP_CTPY_LIMIT loc-assignments. -/
def onrrpIdx (fetch : String → List (Nat × Val)) (s e : Nat) : List Nat :=
  (onrrpSim fetch s e).1

/-- The ONRRP_CTPY_LIMIT column right before its forward fill at line 151. -/
def onrrpPreCol (fetch : String → List (Nat × Val)) (s e : Nat) : List Val :=
  (onrrpSim fetch s e).2

/-- Index and pre-fill column of ONRP_AGG_LIMIT after line 155. -/
def onrpSim (fetch : String → List (Nat × Val)) (s e : Nat) : List Nat × List Val :=
  overrideSim [(20210728, 500)]
    (onrrpIdx fetch s e, List.replicate (onrrpIdx fetch s e).length none)

/-- The final frame index, after the ONRP_AGG_LIMIT loc-assignment. -/
def onrpIdx (fetch : String → List (Nat × Val)) (s e : Nat) : List Nat :=
  (onrpSim fetch s e).1

/-- The ONRP_AGG_LIMIT column right before its forward fill at line 156. -/
def onrpPreCol (fetch : String → List (Nat × Val)) (s e : Nat) : List Val :=
  (onrpSim fetch s e).2

attribute [irreducible] onrrpSim onrrpIdx onrrpPreCol onrpSim onrpIdx onrpPreCol

/-- The most recent non-null value of a list (none when there is none): the
carry of a forward fill after consuming the list. -/
def lastCarry (xs : List Val) : Val :=
  xs.foldl (fun a x => match x with | none => a | some v => some v) none

/-- Turn a frame back into per-series raw data, for feeding a produced panel
back into the pipeline. -/
def frameToFetch (f : Frame) : String → List (Nat × Val) :=
  fun c => f.index.zip (f.col c)

/-! ### Basic list lemmas -/

theorem maskFilter_map (m : List Bool) (l : List α) (g : α → β) :
    maskFilter m (l.map g) = (maskFilter m l).map g := by
  induction m generalizing l with
  | nil => simp [maskFilter]
  | cons b bs ih =>
    cases l with
    | nil => simp [maskFilter]
    | cons x xs =>
      by_cases hb : b = true <;> simp [maskFilter, hb, ih]

theorem maskFilter_self_eq_filter (p : α → Bool) (l : List α) :
    maskFilter (l.map p) l = l.filter p := by
  induction l with
  | nil => rfl
  | cons x xs ih =>
    by_cases hp : p x = true <;> simp [maskFilter, hp, ih, List.filter_cons]

theorem maskFilter_length_eq (m : List Bool) (l₁ : List α) (l₂ : List β)
    (h : l₁.length = l₂.length) :
    (maskFilter m l₁).length = (maskFilter m l₂).length := by
  induction m generalizing l₁ l₂ with
  | nil => simp [maskFilter]
  | cons b bs ih =>
    cases l₁ with
    | nil =>
      cases l₂ with
      | nil => rfl
      | cons y ys => simp at h
    | cons x xs =>
      cases l₂ with
      | nil => simp at h
      | cons y ys =>
        simp only [List.length_cons, Nat.succ.injEq] at h
        by_cases hb : b = true <;> simp [maskFilter, hb, ih xs ys h]

theorem ffillAux_length (last : Val) (xs : List Val) :
    (ffillAux last xs).length = xs.length := by
  induction xs generalizing last with
  | nil => rfl
  | cons x tl ih => cases x <;> simp [ffillAux, ih]

theorem ffillList_length (xs : List Val) : (ffillList xs).length = xs.length :=
  ffillAux_length none xs

theorem setWhere_length (idx : List Nat) (t : Nat) (v : ℚ) (col : List Val)
    (h : col.length = idx.length) :
    (setWhere idx t v col).length = col.length := by
  simp [setWhere, h]

theorem reindex_length (idx : List Nat) (s : List (Nat × Val)) :
    (reindex idx s).length = idx.length := by
  simp [reindex]

theorem mem_insUnique {a t : Nat} {l : List Nat} :
    a ∈ insUnique t l ↔ a = t ∨ a ∈ l := by
  induction l with
  | nil => simp [insUnique]
  | cons h tl ih =>
    rw [insUnique]
    split_ifs with h1 h2
    · simp only [List.mem_cons]
    · subst h2
      simp only [List.mem_cons]; tauto
    · simp only [List.mem_cons, ih]; tauto

theorem sorted_insUnique {t : Nat} {l : List Nat}
    (h : l.Sorted (· < ·)) : (insUnique t l).Sorted (· < ·) := by
  induction l with
  | nil => simp [insUnique]
  | cons x tl ih =>
    rw [List.sorted_cons] at h
    by_cases h1 : t < x
    · rw [insUnique]
      simp only [if_pos h1, List.sorted_cons]
      refine ⟨?_, ?_⟩
      · intro b hb
        rcases List.mem_cons.mp hb with rfl | hb
        · exact h1
        · exact lt_trans h1 (h.1 b hb)
      · exact h
    · by_cases h2 : t = x
      · rw [insUnique]
        simp only [if_neg h1, if_pos h2, List.sorted_cons]
        exact h
      · have hx : x < t := by omega
        rw [insUnique]
        simp only [if_neg h1, if_neg h2, List.sorted_cons]
        refine ⟨?_, ih h.2⟩
        intro b hb
        rcases mem_insUnique.mp hb with rfl | hb
        · exact hx
        · exact h.1 b hb

theorem sorted_foldr_insUnique (ds : List Nat) :
    (ds.foldr insUnique []).Sorted (· < ·) := by
  induction ds with
  | nil => simp
  | cons d tl ih => exact sorted_insUnique ih

theorem unionIdx_sorted (fetch : String → List (Nat × Val)) :
    (unionIdx fetch).Sorted (· < ·) :=
  sorted_foldr_insUnique (allDates fetch)

theorem unionIdx_nodup (fetch : String → List (Nat × Val)) :
    (unionIdx fetch).Nodup :=
  (unionIdx_sorted fetch).nodup

theorem clipList_sublist (s e : Nat) (l : List Nat) :
    List.Sublist (clipList s e l) l :=
  List.filter_sublist l

theorem clipIdx_nodup (fetch : String → List (Nat × Val)) (s e : Nat) :
    (clipIdx fetch s e).Nodup :=
  (unionIdx_nodup fetch).sublist (clipList_sublist s e (unionIdx fetch))

theorem clipIdx_sorted (fetch : String → List (Nat × Val)) (s e : Nat) :
    (clipIdx fetch s e).Sorted (· < ·) :=
  (unionIdx_sorted fetch).sublist (clipList_sublist s e (unionIdx fetch))

theorem mem_clipList {s e t : Nat} {l : List Nat} (h : t ∈ clipList s e l) :
    s ≤ t ∧ t ≤ e := by
  have := List.of_mem_filter h
  simp at this
  exact this

/-- One step of the forward-fill carry. -/
def carryStep (a x : Val) : Val := match x with | none => a | some v => some v

theorem lastCarry_eq_foldl (xs : List Val) : lastCarry xs = xs.foldl carryStep none := by
  rfl

theorem ffillAux_getElem (last : Val) (xs : List Val) (i : Nat) (h : i < xs.length) :
    (ffillAux last xs)[i]? = some ((xs.take (i + 1)).foldl carryStep last) := by
  induction xs generalizing last i with
  | nil => simp at h
  | cons x tl ih =>
    cases i with
    | zero => cases x <;> simp [ffillAux, carryStep]
    | succ j =>
      simp only [List.length_cons, Nat.succ_lt_succ_iff] at h
      cases x with
      | none => simpa [ffillAux, carryStep] using ih last j h
      | some v => simpa [ffillAux, carryStep] using ih (some v) j h

theorem ffillList_getElem (xs : List Val) (i : Nat) (h : i < xs.length) :
    (ffillList xs)[i]? = some ((xs.take (i + 1)).foldl carryStep none) :=
  ffillAux_getElem none xs i h

theorem ffillList_getElem_some (xs : List Val) (i : Nat) (v : ℚ)
    (h : xs[i]? = some (some v)) :
    (ffillList xs)[i]? = some (some v) := by
  have hi : i < xs.length := by
    by_contra hn
    rw [List.getElem?_eq_none (by omega)] at h
    exact Option.noConfusion h
  rw [ffillList_getElem xs i hi, List.take_succ, List.foldl_append, h]
  simp [carryStep]

/-! ### Association-list lookup lemmas -/

theorem lookup_map_trans (c c' : String) (g : List Val → List Val)
    (cols : List (String × List Val)) :
    List.lookup c' (cols.map (fun p => (p.1, if p.1 = c then g p.2 else p.2)))
      = (List.lookup c' cols).map (fun xs => if c' = c then g xs else xs) := by
  induction cols with
  | nil => simp
  | cons p tl ih =>
    by_cases hc : c' = p.1
    · subst hc; simp [List.lookup]
    · simp [List.lookup, ih, beq_false_of_ne hc]

theorem lookup_map_set (c c' : String) (v : List Val)
    (cols : List (String × List Val)) :
    List.lookup c' (cols.map (fun p => (p.1, if p.1 = c then v else p.2)))
      = (List.lookup c' cols).map (fun xs => if c' = c then v else xs) := by
  induction cols with
  | nil => simp
  | cons p tl ih =>
    by_cases hc : c' = p.1
    · subst hc; simp [List.lookup]
    · simp [List.lookup, ih, beq_false_of_ne hc]

theorem lookup_map_appendCell (c c' : String) (w z : Val)
    (cols : List (String × List Val)) :
    List.lookup c' (cols.map (fun p => (p.1, p.2 ++ [if p.1 = c then w else z])))
      = (List.lookup c' cols).map (fun xs => xs ++ [if c' = c then w else z]) := by
  induction cols with
  | nil => simp
  | cons p tl ih =>
    by_cases hc : c' = p.1
    · subst hc; simp [List.lookup]
    · simp [List.lookup, ih, beq_false_of_ne hc]

theorem lookup_append_assoc (c : String) (l₁ l₂ : List (String × List Val)) :
    List.lookup c (l₁ ++ l₂)
      = ((List.lookup c l₁).or (List.lookup c l₂)) := by
  induction l₁ with
  | nil => simp
  | cons p tl ih =>
    by_cases hc : c = p.1
    · subst hc; simp [List.lookup]
    · simp [List.lookup, ih, beq_false_of_ne hc]

theorem lookup_mapNamed (c : String) (h : List String) (F : String → List Val) :
    List.lookup c (h.map (fun n => (n, F n)))
      = if c ∈ h then some (F c) else none := by
  induction h with
  | nil => simp
  | cons n tl ih =>
    by_cases hc : c = n
    · subst hc; simp [List.lookup]
    · simp [List.lookup, ih, beq_false_of_ne hc, hc]

theorem lookup_isSome_of_mem (c : String) (cols : List (String × List Val))
    (h : c ∈ cols.map Prod.fst) : ∃ v, List.lookup c cols = some v := by
  induction cols with
  | nil => simp at h
  | cons p tl ih =>
    by_cases hc : c = p.1
    · subst hc; exact ⟨p.2, by simp [List.lookup]⟩
    · have h1 : c ∈ tl.map Prod.fst := by
        rcases List.mem_cons.mp h with h2 | h2
        · exact absurd h2 hc
        · exact h2
      rcases ih h1 with ⟨v, hv⟩
      exact ⟨v, by simp [List.lookup, beq_false_of_ne hc, hv]⟩

/-! ### Frame operation lemmas -/

theorem colIds_mk (idx : List Nat) (cols : List (String × List Val)) :
    Frame.colIds ⟨idx, cols⟩ = cols.map Prod.fst := rfl

theorem colIds_mapNamed (idx : List Nat) (h : List String) (F : String → List Val) :
    Frame.colIds ⟨idx, h.map (fun n => (n, F n))⟩ = h := by
  simp [Frame.colIds, List.map_map, Function.comp_def]

theorem col_mapNamed (idx : List Nat) (h : List String) (F : String → List Val)
    (c : String) (hc : c ∈ h) :
    Frame.col ⟨idx, h.map (fun n => (n, F n))⟩ c = F c := by
  simp [Frame.col, lookup_mapNamed, hc]

theorem transCol_index (c : String) (g : List Val → List Val) (f : Frame) :
    (transCol c g f).index = f.index := rfl

theorem transCol_colIds (c : String) (g : List Val → List Val) (f : Frame) :
    (transCol c g f).colIds = f.colIds := by
  simp [transCol, Frame.colIds, List.map_map]

theorem transCol_col_self (c : String) (g : List Val → List Val) (f : Frame)
    (hc : c ∈ f.colIds) :
    (transCol c g f).col c = g (f.col c) := by
  rcases lookup_isSome_of_mem c f.cols hc with ⟨v, hv⟩
  simp [transCol, Frame.col, lookup_map_trans, hv]

theorem transCol_col_ne (c c' : String) (g : List Val → List Val) (f : Frame)
    (hc : c' ≠ c) :
    (transCol c g f).col c' = f.col c' := by
  simp only [transCol, Frame.col, lookup_map_trans]
  cases hl : List.lookup c' f.cols with
  | none => simp [hl]
  | some v => simp [hl, hc]

theorem transCol_WF (c : String) (g : List Val → List Val) (f : Frame)
    (hg : ∀ xs : List Val, xs.length = f.index.length → (g xs).length = xs.length)
    (hwf : f.WF) :
    (transCol c g f).WF := by
  intro p hp
  simp only [transCol, List.mem_map] at hp
  rcases hp with ⟨q, hq, rfl⟩
  by_cases h : q.1 = c <;> simp [h, hg q.2 (hwf q hq), hwf q hq, transCol_index]

theorem lookup_self_of_nodup (cols : List (String × List Val))
    (hnd : (cols.map Prod.fst).Nodup) {p : String × List Val} (hp : p ∈ cols) :
    List.lookup p.1 cols = some p.2 := by
  induction cols with
  | nil => simp at hp
  | cons q tl ih =>
    rcases List.mem_cons.mp hp with rfl | hp1
    · simp [List.lookup]
    · have hq : q.1 ∉ tl.map Prod.fst := (List.nodup_cons.mp hnd).1
      have hne : p.1 ≠ q.1 := by
        intro he
        exact hq (he ▸ List.mem_map_of_mem Prod.fst hp1)
      simp [List.lookup, beq_false_of_ne hne,
        ih (List.nodup_cons.mp hnd).2 hp1]

theorem overrideSim_idx_le (sets : List (Nat × ℚ)) (st : List Nat × List Val) :
    st.1.length ≤ (overrideSim sets st).1.length := by
  induction sets generalizing st with
  | nil => simp [overrideSim]
  | cons p tl ih =>
    simp only [overrideSim, List.foldl_cons]
    by_cases h : p.1 ∈ st.1
    · simpa [h, overrideSim] using ih (st.1, setWhere st.1 p.1 p.2 st.2)
    · have := ih (st.1 ++ [p.1], st.2 ++ [some p.2])
      simp only [overrideSim] at this ⊢
      simp only [if_neg h]
      calc st.1.length ≤ (st.1 ++ [p.1]).length := by simp
        _ ≤ _ := this

theorem overrideSim_cons (p : Nat × ℚ) (tl : List (Nat × ℚ)) (st : List Nat × List Val) :
    overrideSim (p :: tl) st =
      overrideSim tl
        (if p.1 ∈ st.1 then (st.1, setWhere st.1 p.1 p.2 st.2)
         else (st.1 ++ [p.1], st.2 ++ [some p.2])) := by
  simp [overrideSim]

theorem setWhere_length_min (idx : List Nat) (t : Nat) (v : ℚ) (col : List Val) :
    (setWhere idx t v col).length = min idx.length col.length := by
  simp [setWhere]

theorem locSet_index (t : Nat) (c : String) (v : ℚ) (f : Frame) :
    (locSet t c v f).index = if t ∈ f.index then f.index else f.index ++ [t] := by
  by_cases h : t ∈ f.index <;> simp [locSet, h, transCol_index]

theorem locSet_colIds (t : Nat) (c : String) (v : ℚ) (f : Frame) :
    (locSet t c v f).colIds = f.colIds := by
  by_cases h : t ∈ f.index
  · simp only [locSet, if_pos h]
    exact transCol_colIds _ _ _
  · simp [locSet, h, Frame.colIds, List.map_map, Function.comp_def]

theorem locSet_WF (t : Nat) (c : String) (v : ℚ) (f : Frame) (hwf : f.WF) :
    (locSet t c v f).WF := by
  by_cases h : t ∈ f.index
  · simp only [locSet, if_pos h]
    refine transCol_WF c _ f (fun xs hx => ?_) hwf
    rw [setWhere_length_min]
    omega
  · simp only [locSet, if_neg h]
    intro p hp
    simp only [List.mem_map] at hp
    rcases hp with ⟨q, hq, rfl⟩
    simp [hwf q hq]

theorem locSet_col_self_mem (t : Nat) (c : String) (v : ℚ) (f : Frame)
    (hc : c ∈ f.colIds) (h : t ∈ f.index) :
    (locSet t c v f).col c = setWhere f.index t v (f.col c) := by
  simp only [locSet, if_pos h]
  exact transCol_col_self c _ f hc

theorem locSet_col_self_append (t : Nat) (c : String) (v : ℚ) (f : Frame)
    (hc : c ∈ f.colIds) (h : t ∉ f.index) :
    (locSet t c v f).col c = f.col c ++ [some v] := by
  rcases lookup_isSome_of_mem c f.cols hc with ⟨w, hw⟩
  have hcol : f.col c = w := by simp [Frame.col, hw]
  simp [locSet, h, Frame.col, lookup_map_appendCell, hw, hcol]

theorem foldl_locSet_char (sets : List (Nat × ℚ)) (c : String) (f : Frame)
    (hwf : f.WF) (hc : c ∈ f.colIds) (hnd : f.colIds.Nodup) :
    sets.foldl (fun g p => locSet p.1 c p.2 g) f =
      ⟨(overrideSim sets (f.index, f.col c)).1,
       f.cols.map (fun p =>
         (p.1, if p.1 = c then (overrideSim sets (f.index, f.col c)).2
               else p.2 ++ List.replicate
                 ((overrideSim sets (f.index, f.col c)).1.length - f.index.length) none))⟩ := by
  induction sets generalizing f with
  | nil =>
    simp only [List.foldl_nil, overrideSim, Nat.sub_self, List.replicate_zero,
      List.append_nil]
    cases f with
    | mk idx cols =>
      simp only [Frame.mk.injEq, true_and]
      conv_lhs => rw [← List.map_id cols]
      apply List.map_congr_left
      intro p hp
      cases p with
      | mk a b =>
        by_cases h : a = c
        · subst h
          have hcv : Frame.col ⟨idx, cols⟩ a = b := by
            have hl := lookup_self_of_nodup cols hnd hp
            simp only [Frame.col] at *
            simp [hl]
          simp [hcv]
        · simp [h]
  | cons p₀ tl ih =>
    rw [List.foldl_cons, overrideSim_cons]
    by_cases h : p₀.1 ∈ f.index
    · -- in-index: only the target column changes, the index is unchanged
      have hf' := ih (locSet p₀.1 c p₀.2 f) (locSet_WF _ _ _ _ hwf)
        (by rw [locSet_colIds]; exact hc) (by rw [locSet_colIds]; exact hnd)
      rw [hf']
      have hidx : (locSet p₀.1 c p₀.2 f).index = f.index := by
        simp [locSet_index, h]
      have hcol : (locSet p₀.1 c p₀.2 f).col c = setWhere f.index p₀.1 p₀.2 (f.col c) :=
        locSet_col_self_mem _ _ _ _ hc h
      rw [hidx, hcol, if_pos h]
      simp only [locSet, if_pos h, transCol, Frame.mk.injEq, true_and, List.map_map]
      apply List.map_congr_left
      intro q _
      by_cases hq : q.1 = c <;> simp [hq]
    · -- absent date: a new row is appended to every column
      have hf' := ih (locSet p₀.1 c p₀.2 f) (locSet_WF _ _ _ _ hwf)
        (by rw [locSet_colIds]; exact hc) (by rw [locSet_colIds]; exact hnd)
      rw [hf']
      have hidx : (locSet p₀.1 c p₀.2 f).index = f.index ++ [p₀.1] := by
        simp [locSet_index, h]
      have hcol : (locSet p₀.1 c p₀.2 f).col c = f.col c ++ [some p₀.2] :=
        locSet_col_self_append _ _ _ _ hc h
      rw [hidx, hcol, if_neg h]
      have hle := overrideSim_idx_le tl (f.index ++ [p₀.1], f.col c ++ [some p₀.2])
      simp only [List.length_append, List.length_singleton] at hle
      simp only [locSet, if_neg h, Frame.mk.injEq, true_and, List.map_map]
      apply List.map_congr_left
      intro q _
      by_cases hq : q.1 = c
      · simp [hq]
      · have harith :
            (overrideSim tl (f.index ++ [p₀.1], f.col c ++ [some p₀.2])).1.length
              - f.index.length
            = ((overrideSim tl (f.index ++ [p₀.1], f.col c ++ [some p₀.2])).1.length
              - (f.index ++ [p₀.1]).length) + 1 := by
          simp only [List.length_append, List.length_singleton]
          omega
        simp [hq, harith, List.replicate_succ, List.append_assoc]

theorem fold_transCol_named (G : List Val → List Val) (ns h : List String)
    (idx : List Nat) (F : String → List Val)
    (hn : ns.Nodup) (hsub : ∀ c ∈ ns, c ∈ h) :
    ns.foldl (fun fr c => if c ∈ fr.colIds then transCol c G fr else fr)
      ⟨idx, h.map (fun c => (c, F c))⟩
    = ⟨idx, h.map (fun c => (c, if c ∈ ns then G (F c) else F c))⟩ := by
  induction ns generalizing F with
  | nil => simp
  | cons c₀ tl ih =>
    have hc₀ : c₀ ∈ h := hsub c₀ (by simp)
    rw [List.foldl_cons, if_pos (by rw [colIds_mapNamed]; exact hc₀)]
    have htrans : transCol c₀ G ⟨idx, h.map (fun c => (c, F c))⟩
        = ⟨idx, h.map (fun c => (c, if c = c₀ then G (F c) else F c))⟩ := by
      simp [transCol, List.map_map]
    rw [htrans,
      ih (fun c => if c = c₀ then G (F c) else F c) hn.of_cons
        (fun c hc => hsub c (List.mem_cons_of_mem _ hc))]
    have hnot : c₀ ∉ tl := (List.nodup_cons.mp hn).1
    congr 1
    apply List.map_congr_left
    intro a _
    by_cases h1 : a = c₀
    · subst h1
      simp [hnot]
    · simp [h1]

theorem lookup_none_of_not_mem (c : String) (cols : List (String × List Val))
    (h : c ∉ cols.map Prod.fst) : List.lookup c cols = none := by
  induction cols with
  | nil => simp
  | cons p tl ih =>
    have hne : c ≠ p.1 := by
      intro he
      exact h (by simp [he])
    simp [List.lookup, beq_false_of_ne hne, ih (fun hm => h (by simp [hm]))]

theorem col_append_last (idx : List Nat) (cols : List (String × List Val))
    (c : String) (v : List Val) (h : c ∉ cols.map Prod.fst) :
    Frame.col ⟨idx, cols ++ [(c, v)]⟩ c = v := by
  simp [Frame.col, lookup_append_assoc, lookup_none_of_not_mem c cols h, List.lookup]

theorem filter_mapNamed (h : List String) (F : String → List Val) (q : String → Bool) :
    (h.map (fun c => (c, F c))).filter (fun p => q p.1)
      = (h.filter q).map (fun c => (c, F c)) := by
  induction h with
  | nil => simp
  | cons c tl ih =>
    by_cases hq : q c = true <;> simp [List.filter_cons, hq, ih]

theorem rawColM_length (fetch : String → List (Nat × Val)) (s e : Nat) (c : String) :
    (rawColM fetch s e c).length = (clipIdx fetch s e).length := by
  simp [rawColM, reindex]

theorem convColM_length (fetch : String → List (Nat × Val)) (s e : Nat) (c : String) :
    (convColM fetch s e c).length = (clipIdx fetch s e).length := by
  by_cases h : c ∈ millions_to_billions <;> simp [convColM, h, rawColM_length]

theorem fillColM_length (b : Bool) (fetch : String → List (Nat × Val)) (s e : Nat)
    (c : String) :
    (fillColM b fetch s e c).length = (clipIdx fetch s e).length := by
  cases b with
  | false => simp [fillColM, convColM_length]
  | true =>
    by_cases h : c ∈ forward_fill <;>
      simp [fillColM, h, ffillList_length, convColM_length]

theorem genColM_length (b : Bool) (fetch : String → List (Nat × Val)) (s e : Nat) :
    (genColM b fetch s e).length = (clipIdx fetch s e).length := by
  simp [genColM, fillColM_length]

/-! ### Stage characterizations of the pipeline -/

theorem stageClip (fetch : String → List (Nat × Val)) (s e : Nat) :
    clipFrame s e (concatFrame fetch)
      = ⟨clipIdx fetch s e, series_to_pull.map (fun c => (c, rawColM fetch s e c))⟩ := by
  simp only [clipFrame, concatFrame, List.map_map]
  congr 1
  · exact maskFilter_self_eq_filter _ _
  · apply List.map_congr_left
    intro c _
    simp only [Function.comp_def]
    congr 1
    rw [show reindex (unionIdx fetch) (fetch c)
        = (unionIdx fetch).map (fun t => ((fetch c).lookup t).getD none) from rfl,
      maskFilter_map, maskFilter_self_eq_filter]
    rfl

theorem stageUnit (fetch : String → List (Nat × Val)) (s e : Nat) :
    unitStep ⟨clipIdx fetch s e, series_to_pull.map (fun c => (c, rawColM fetch s e c))⟩
      = ⟨clipIdx fetch s e, series_to_pull.map (fun c => (c, convColM fetch s e c))⟩ := by
  have h := fold_transCol_named (List.map (Option.map (fun q => q / 1000)))
    millions_to_billions series_to_pull (clipIdx fetch s e) (rawColM fetch s e)
    (by decide) (by decide)
  simp only [unitStep, mapCol]
  rw [h]
  simp [convColM]

theorem stageFill (b : Bool) (fetch : String → List (Nat × Val)) (s e : Nat) :
    fillStep b ⟨clipIdx fetch s e, series_to_pull.map (fun c => (c, convColM fetch s e c))⟩
      = ⟨clipIdx fetch s e, series_to_pull.map (fun c => (c, fillColM b fetch s e c))⟩ := by
  cases b with
  | false => simp [fillStep, fillColM]
  | true =>
    have h := fold_transCol_named ffillList forward_fill series_to_pull
      (clipIdx fetch s e) (convColM fetch s e) (by decide) (by decide)
    simp only [fillStep, if_pos rfl, ffillCol]
    rw [h]
    simp [fillColM]

theorem stageGen (b : Bool) (fetch : String → List (Nat × Val)) (s e : Nat) :
    genStep ⟨clipIdx fetch s e, series_to_pull.map (fun c => (c, fillColM b fetch s e c))⟩
      = ⟨clipIdx fetch s e,
         series_to_pull.map (fun c => (c, fillColM b fetch s e c))
           ++ [("Gen_IORB", genColM b fetch s e)]⟩ := by
  have hcond : "IORB" ∈ Frame.colIds
        ⟨clipIdx fetch s e, series_to_pull.map (fun c => (c, fillColM b fetch s e c))⟩
      ∧ "IOER" ∈ Frame.colIds
        ⟨clipIdx fetch s e, series_to_pull.map (fun c => (c, fillColM b fetch s e c))⟩ := by
    rw [colIds_mapNamed]
    exact ⟨by decide, by decide⟩
  have hnot : "Gen_IORB" ∉ Frame.colIds
      ⟨clipIdx fetch s e, series_to_pull.map (fun c => (c, fillColM b fetch s e c))⟩ := by
    rw [colIds_mapNamed]
    decide
  have hIORB := col_mapNamed (clipIdx fetch s e) series_to_pull
    (fun c => fillColM b fetch s e c) "IORB" (by decide)
  have hIOER := col_mapNamed (clipIdx fetch s e) series_to_pull
    (fun c => fillColM b fetch s e c) "IOER" (by decide)
  simp only [genStep, if_pos hcond, setCol, if_neg hnot, hIORB, hIOER]
  rfl

theorem stageOnrrp (b : Bool) (fetch : String → List (Nat × Val)) (s e : Nat) :
    onrrpStep ⟨clipIdx fetch s e,
        series_to_pull.map (fun c => (c, fillColM b fetch s e c))
          ++ [("Gen_IORB", genColM b fetch s e)]⟩
      = ⟨onrrpIdx fetch s e,
         series_to_pull.map (fun c => (c, fillColM b fetch s e c ++
             List.replicate ((onrrpIdx fetch s e).length - (clipIdx fetch s e).length) none))
         ++ [("Gen_IORB", genColM b fetch s e ++
             List.replicate ((onrrpIdx fetch s e).length - (clipIdx fetch s e).length) none),
             ("ONRRP_CTPY_LIMIT", ffillList (onrrpPreCol fetch s e))]⟩ := by
  have hids : Frame.colIds ⟨clipIdx fetch s e,
      series_to_pull.map (fun c => (c, fillColM b fetch s e c))
        ++ [("Gen_IORB", genColM b fetch s e)]⟩
      = series_to_pull ++ ["Gen_IORB"] := by
    simp [Frame.colIds, List.map_append, List.map_map, Function.comp_def]
  have hnot : "ONRRP_CTPY_LIMIT" ∉ Frame.colIds ⟨clipIdx fetch s e,
      series_to_pull.map (fun c => (c, fillColM b fetch s e c))
        ++ [("Gen_IORB", genColM b fetch s e)]⟩ := by
    rw [hids]; decide
  simp only [onrrpStep, setCol, if_neg hnot]
  have hwf : Frame.WF ⟨clipIdx fetch s e,
      (series_to_pull.map (fun c => (c, fillColM b fetch s e c))
        ++ [("Gen_IORB", genColM b fetch s e)])
      ++ [("ONRRP_CTPY_LIMIT", List.replicate (clipIdx fetch s e).length none)]⟩ := by
    intro p hp
    simp only [List.mem_append, List.mem_map, List.mem_singleton] at hp
    rcases hp with (⟨c, _, rfl⟩ | rfl) | rfl
    · exact fillColM_length b fetch s e c
    · exact genColM_length b fetch s e
    · simp
  have hmem : "ONRRP_CTPY_LIMIT" ∈ Frame.colIds ⟨clipIdx fetch s e,
      (series_to_pull.map (fun c => (c, fillColM b fetch s e c))
        ++ [("Gen_IORB", genColM b fetch s e)])
      ++ [("ONRRP_CTPY_LIMIT", List.replicate (clipIdx fetch s e).length none)]⟩ := by
    simp [Frame.colIds, List.map_append]
  have hnd : (Frame.colIds ⟨clipIdx fetch s e,
      (series_to_pull.map (fun c => (c, fillColM b fetch s e c))
        ++ [("Gen_IORB", genColM b fetch s e)])
      ++ [("ONRRP_CTPY_LIMIT", List.replicate (clipIdx fetch s e).length none)]⟩).Nodup := by
    simp only [Frame.colIds, List.map_append, List.map_map, Function.comp_def,
      List.map_cons, List.map_nil, List.map_id]
    decide
  rw [foldl_locSet_char manual_ONRRP_cntypty_limits "ONRRP_CTPY_LIMIT" _ hwf hmem hnd]
  have hcol : Frame.col ⟨clipIdx fetch s e,
      (series_to_pull.map (fun c => (c, fillColM b fetch s e c))
        ++ [("Gen_IORB", genColM b fetch s e)])
      ++ [("ONRRP_CTPY_LIMIT", List.replicate (clipIdx fetch s e).length none)]⟩
      "ONRRP_CTPY_LIMIT" = List.replicate (clipIdx fetch s e).length none := by
    apply col_append_last
    simp only [List.map_append, List.map_map, Function.comp_def, List.map_cons,
      List.map_nil]
    decide
  rw [show Frame.index ⟨clipIdx fetch s e,
      (series_to_pull.map (fun c => (c, fillColM b fetch s e c))
        ++ [("Gen_IORB", genColM b fetch s e)])
      ++ [("ONRRP_CTPY_LIMIT", List.replicate (clipIdx fetch s e).length none)]⟩
      = clipIdx fetch s e from rfl, hcol]
  have hsim1 : (overrideSim manual_ONRRP_cntypty_limits
      (clipIdx fetch s e, List.replicate (clipIdx fetch s e).length none)).1
      = onrrpIdx fetch s e := by rw [onrrpIdx, onrrpSim]
  have hsim2 : (overrideSim manual_ONRRP_cntypty_limits
      (clipIdx fetch s e, List.replicate (clipIdx fetch s e).length none)).2
      = onrrpPreCol fetch s e := by rw [onrrpPreCol, onrrpSim]
  rw [hsim1, hsim2]
  simp only [ffillCol, transCol]
  rw [Frame.mk.injEq]
  refine ⟨rfl, ?_⟩
  rw [List.map_map]
  rw [List.map_append, List.map_append]
  rw [List.map_singleton, List.map_singleton]
  rw [List.append_assoc, List.singleton_append]
  have h1 : ∀ c ∈ series_to_pull,
      ((fun p => ((p : String × List Val).1,
          if p.1 = "ONRRP_CTPY_LIMIT" then ffillList p.2 else p.2)) ∘
        (fun p => ((p : String × List Val).1,
          if p.1 = "ONRRP_CTPY_LIMIT" then onrrpPreCol fetch s e
          else p.2 ++ List.replicate
            ((onrrpIdx fetch s e).length - (clipIdx fetch s e).length) none)))
        ((fun c => (c, fillColM b fetch s e c)) c)
      = (c, fillColM b fetch s e c ++ List.replicate
          ((onrrpIdx fetch s e).length - (clipIdx fetch s e).length) none) := by
    intro c hc
    have hne : c ≠ "ONRRP_CTPY_LIMIT" := by
      intro he
      subst he
      exact absurd hc (by decide)
    simp [hne]
  rw [List.map_map]
  refine congrArg₂ (fun a b => a ++ b) ?_ ?_
  · exact List.map_congr_left h1
  · simp

theorem overrideSim_col_length (sets : List (Nat × ℚ)) (st : List Nat × List Val)
    (h : st.2.length = st.1.length) :
    (overrideSim sets st).2.length = (overrideSim sets st).1.length := by
  induction sets generalizing st with
  | nil => simpa [overrideSim] using h
  | cons p tl ih =>
    rw [overrideSim_cons]
    by_cases hm : p.1 ∈ st.1
    · simp only [if_pos hm]
      exact ih _ (by simp [setWhere_length_min, h])
    · simp only [if_neg hm]
      exact ih _ (by simp [h])

theorem clipIdx_length_le_onrrpIdx (fetch : String → List (Nat × Val)) (s e : Nat) :
    (clipIdx fetch s e).length ≤ (onrrpIdx fetch s e).length := by
  rw [onrrpIdx, onrrpSim]
  have h := overrideSim_idx_le manual_ONRRP_cntypty_limits
    (clipIdx fetch s e, List.replicate (clipIdx fetch s e).length none)
  simpa using h

theorem onrrpIdx_length_le_onrpIdx (fetch : String → List (Nat × Val)) (s e : Nat) :
    (onrrpIdx fetch s e).length ≤ (onrpIdx fetch s e).length := by
  rw [onrpIdx, onrpSim]
  have h := overrideSim_idx_le [(20210728, 500)]
    (onrrpIdx fetch s e, List.replicate (onrrpIdx fetch s e).length none)
  simpa using h

theorem onrrpPreCol_length (fetch : String → List (Nat × Val)) (s e : Nat) :
    (onrrpPreCol fetch s e).length = (onrrpIdx fetch s e).length := by
  rw [onrrpPreCol, onrrpIdx, onrrpSim]
  have h := overrideSim_col_length manual_ONRRP_cntypty_limits
    (clipIdx fetch s e, List.replicate (clipIdx fetch s e).length none) (by simp)
  simpa using h

theorem onrpPreCol_length (fetch : String → List (Nat × Val)) (s e : Nat) :
    (onrpPreCol fetch s e).length = (onrpIdx fetch s e).length := by
  rw [onrpPreCol, onrpIdx, onrpSim]
  have h := overrideSim_col_length [(20210728, 500)]
    (onrrpIdx fetch s e, List.replicate (onrrpIdx fetch s e).length none) (by simp)
  simpa using h

theorem locSet_char (t : Nat) (v : ℚ) (c : String) (f : Frame)
    (hwf : f.WF) (hc : c ∈ f.colIds) (hnd : f.colIds.Nodup) :
    locSet t c v f =
      ⟨(overrideSim [(t, v)] (f.index, f.col c)).1,
       f.cols.map (fun p =>
         (p.1, if p.1 = c then (overrideSim [(t, v)] (f.index, f.col c)).2
               else p.2 ++ List.replicate
                 ((overrideSim [(t, v)] (f.index, f.col c)).1.length - f.index.length) none))⟩ := by
  have h := foldl_locSet_char [(t, v)] c f hwf hc hnd
  simpa using h

theorem onrpStep_eq (f : Frame) :
    onrpStep f = ffillCol "ONRP_AGG_LIMIT"
      (locSet 20210728 "ONRP_AGG_LIMIT" 500
        (setCol "ONRP_AGG_LIMIT" (List.replicate f.index.length none) f)) := rfl

theorem setCol_append (c : String) (v : List Val) (f : Frame) (h : c ∉ f.colIds) :
    setCol c v f = ⟨f.index, f.cols ++ [(c, v)]⟩ := by
  simp [setCol, h]

theorem stageOnrp (b : Bool) (fetch : String → List (Nat × Val)) (s e : Nat) :
    onrpStep ⟨onrrpIdx fetch s e,
        series_to_pull.map (fun c => (c, fillColM b fetch s e c ++
            List.replicate ((onrrpIdx fetch s e).length - (clipIdx fetch s e).length) none))
        ++ [("Gen_IORB", genColM b fetch s e ++
            List.replicate ((onrrpIdx fetch s e).length - (clipIdx fetch s e).length) none),
            ("ONRRP_CTPY_LIMIT", ffillList (onrrpPreCol fetch s e))]⟩
      = ⟨onrpIdx fetch s e,
         series_to_pull.map (fun c => (c, (fillColM b fetch s e c ++
             List.replicate ((onrrpIdx fetch s e).length - (clipIdx fetch s e).length) none) ++
             List.replicate ((onrpIdx fetch s e).length - (onrrpIdx fetch s e).length) none))
         ++ [("Gen_IORB", (genColM b fetch s e ++
             List.replicate ((onrrpIdx fetch s e).length - (clipIdx fetch s e).length) none) ++
             List.replicate ((onrpIdx fetch s e).length - (onrrpIdx fetch s e).length) none),
             ("ONRRP_CTPY_LIMIT", ffillList (onrrpPreCol fetch s e) ++
             List.replicate ((onrpIdx fetch s e).length - (onrrpIdx fetch s e).length) none),
             ("ONRP_AGG_LIMIT", ffillList (onrpPreCol fetch s e))]⟩ := by
  have hids : Frame.colIds ⟨onrrpIdx fetch s e,
      series_to_pull.map (fun c => (c, fillColM b fetch s e c ++
          List.replicate ((onrrpIdx fetch s e).length - (clipIdx fetch s e).length) none))
      ++ [("Gen_IORB", genColM b fetch s e ++
          List.replicate ((onrrpIdx fetch s e).length - (clipIdx fetch s e).length) none),
          ("ONRRP_CTPY_LIMIT", ffillList (onrrpPreCol fetch s e))]⟩
      = series_to_pull ++ ["Gen_IORB", "ONRRP_CTPY_LIMIT"] := by
    simp [Frame.colIds, List.map_append, List.map_map, Function.comp_def]
  have hnot : "ONRP_AGG_LIMIT" ∉ Frame.colIds ⟨onrrpIdx fetch s e,
      series_to_pull.map (fun c => (c, fillColM b fetch s e c ++
          List.replicate ((onrrpIdx fetch s e).length - (clipIdx fetch s e).length) none))
      ++ [("Gen_IORB", genColM b fetch s e ++
          List.replicate ((onrrpIdx fetch s e).length - (clipIdx fetch s e).length) none),
          ("ONRRP_CTPY_LIMIT", ffillList (onrrpPreCol fetch s e))]⟩ := by
    rw [hids]; decide
  rw [onrpStep_eq, setCol_append _ _ _ hnot]
  have hK := clipIdx_length_le_onrrpIdx fetch s e
  have hwf : Frame.WF ⟨onrrpIdx fetch s e,
      (series_to_pull.map (fun c => (c, fillColM b fetch s e c ++
          List.replicate ((onrrpIdx fetch s e).length - (clipIdx fetch s e).length) none))
      ++ [("Gen_IORB", genColM b fetch s e ++
          List.replicate ((onrrpIdx fetch s e).length - (clipIdx fetch s e).length) none),
          ("ONRRP_CTPY_LIMIT", ffillList (onrrpPreCol fetch s e))])
      ++ [("ONRP_AGG_LIMIT", List.replicate (onrrpIdx fetch s e).length none)]⟩ := by
    intro p hp
    simp only [List.mem_append, List.mem_map, List.mem_cons, List.mem_singleton,
      List.not_mem_nil, or_false] at hp
    rcases hp with (⟨c, _, rfl⟩ | rfl | rfl) | rfl
    · simp only [List.length_append, List.length_replicate, fillColM_length]
      omega
    · simp only [List.length_append, List.length_replicate, genColM_length]
      omega
    · simp [ffillList_length, onrrpPreCol_length]
    · simp
  have hmem : "ONRP_AGG_LIMIT" ∈ Frame.colIds ⟨onrrpIdx fetch s e,
      (series_to_pull.map (fun c => (c, fillColM b fetch s e c ++
          List.replicate ((onrrpIdx fetch s e).length - (clipIdx fetch s e).length) none))
      ++ [("Gen_IORB", genColM b fetch s e ++
          List.replicate ((onrrpIdx fetch s e).length - (clipIdx fetch s e).length) none),
          ("ONRRP_CTPY_LIMIT", ffillList (onrrpPreCol fetch s e))])
      ++ [("ONRP_AGG_LIMIT", List.replicate (onrrpIdx fetch s e).length none)]⟩ := by
    simp [Frame.colIds, List.map_append]
  have hnd : (Frame.colIds ⟨onrrpIdx fetch s e,
      (series_to_pull.map (fun c => (c, fillColM b fetch s e c ++
          List.replicate ((onrrpIdx fetch s e).length - (clipIdx fetch s e).length) none))
      ++ [("Gen_IORB", genColM b fetch s e ++
          List.replicate ((onrrpIdx fetch s e).length - (clipIdx fetch s e).length) none),
          ("ONRRP_CTPY_LIMIT", ffillList (onrrpPreCol fetch s e))])
      ++ [("ONRP_AGG_LIMIT", List.replicate (onrrpIdx fetch s e).length none)]⟩).Nodup := by
    simp only [Frame.colIds, List.map_append, List.map_map, Function.comp_def,
      List.map_cons, List.map_nil, List.map_id]
    decide
  rw [locSet_char 20210728 500 "ONRP_AGG_LIMIT" _ hwf hmem hnd]
  have hcol : Frame.col ⟨onrrpIdx fetch s e,
      (series_to_pull.map (fun c => (c, fillColM b fetch s e c ++
          List.replicate ((onrrpIdx fetch s e).length - (clipIdx fetch s e).length) none))
      ++ [("Gen_IORB", genColM b fetch s e ++
          List.replicate ((onrrpIdx fetch s e).length - (clipIdx fetch s e).length) none),
          ("ONRRP_CTPY_LIMIT", ffillList (onrrpPreCol fetch s e))])
      ++ [("ONRP_AGG_LIMIT", List.replicate (onrrpIdx fetch s e).length none)]⟩
      "ONRP_AGG_LIMIT" = List.replicate (onrrpIdx fetch s e).length none := by
    apply col_append_last
    simp only [List.map_append, List.map_map, Function.comp_def, List.map_cons,
      List.map_nil]
    decide
  rw [show Frame.index ⟨onrrpIdx fetch s e,
      (series_to_pull.map (fun c => (c, fillColM b fetch s e c ++
          List.replicate ((onrrpIdx fetch s e).length - (clipIdx fetch s e).length) none))
      ++ [("Gen_IORB", genColM b fetch s e ++
          List.replicate ((onrrpIdx fetch s e).length - (clipIdx fetch s e).length) none),
          ("ONRRP_CTPY_LIMIT", ffillList (onrrpPreCol fetch s e))])
      ++ [("ONRP_AGG_LIMIT", List.replicate (onrrpIdx fetch s e).length none)]⟩
      = onrrpIdx fetch s e from rfl, hcol]
  have hsim1 : (overrideSim [(20210728, 500)]
      (onrrpIdx fetch s e, List.replicate (onrrpIdx fetch s e).length none)).1
      = onrpIdx fetch s e := by rw [onrpIdx, onrpSim]
  have hsim2 : (overrideSim [(20210728, 500)]
      (onrrpIdx fetch s e, List.replicate (onrrpIdx fetch s e).length none)).2
      = onrpPreCol fetch s e := by rw [onrpPreCol, onrpSim]
  rw [hsim1, hsim2]
  simp only [ffillCol, transCol]
  rw [Frame.mk.injEq]
  refine ⟨rfl, ?_⟩
  rw [List.map_map]
  rw [List.map_append, List.map_append]
  rw [List.map_cons, List.map_singleton, List.map_singleton]
  rw [List.append_assoc, List.cons_append, List.singleton_append]
  have h1 : ∀ c ∈ series_to_pull,
      ((fun p => ((p : String × List Val).1,
          if p.1 = "ONRP_AGG_LIMIT" then ffillList p.2 else p.2)) ∘
        (fun p => ((p : String × List Val).1,
          if p.1 = "ONRP_AGG_LIMIT" then onrpPreCol fetch s e
          else p.2 ++ List.replicate
            ((onrpIdx fetch s e).length - (onrrpIdx fetch s e).length) none)))
        ((fun c => (c, fillColM b fetch s e c ++
          List.replicate ((onrrpIdx fetch s e).length - (clipIdx fetch s e).length) none)) c)
      = (c, (fillColM b fetch s e c ++
          List.replicate ((onrrpIdx fetch s e).length - (clipIdx fetch s e).length) none) ++
          List.replicate ((onrpIdx fetch s e).length - (onrrpIdx fetch s e).length) none) := by
    intro c hc
    have hne : c ≠ "ONRP_AGG_LIMIT" := by
      intro he
      subst he
      exact absurd hc (by decide)
    simp [hne]
  rw [List.map_map]
  refine congrArg₂ (fun a b => a ++ b) ?_ ?_
  · exact List.map_congr_left h1
  · simp

theorem dropFilter_mapNamed (h : List String) (F : String → List Val) :
    (h.map (fun c => (c, F c))).filter
        (fun p => !(["IORR", "IOER", "IORB"].contains p.1))
      = (h.filter (fun c => !(["IORR", "IOER", "IORB"].contains c))).map
          (fun c => (c, F c)) := by
  induction h with
  | nil => simp
  | cons c tl ih =>
    rw [List.map_cons, List.filter_cons, List.filter_cons]
    by_cases hq : (!(["IORR", "IOER", "IORB"].contains c)) = true
    · rw [if_pos hq, if_pos hq, List.map_cons, ih]
    · rw [if_neg hq, if_neg hq, ih]

/-- The full closed form of the pipeline: pull_fred returns the clipped index
followed by the loc-appended override rows, the kept source columns converted
and conditionally filled then padded with nulls for appended rows, Gen_IORB
likewise, and the two override columns forward-filled from their manual
assignments. -/
theorem pull_fred_char (fetch : String → List (Nat × Val)) (s e : Nat) (b : Bool) :
    pull_fred fetch s e b =
      ⟨onrpIdx fetch s e,
       (series_to_pull.filter (fun c => !(["IORR", "IOER", "IORB"].contains c))).map
         (fun c => (c, (fillColM b fetch s e c ++
             List.replicate ((onrrpIdx fetch s e).length - (clipIdx fetch s e).length) none) ++
             List.replicate ((onrpIdx fetch s e).length - (onrrpIdx fetch s e).length) none))
       ++ [("Gen_IORB", (genColM b fetch s e ++
             List.replicate ((onrrpIdx fetch s e).length - (clipIdx fetch s e).length) none) ++
             List.replicate ((onrpIdx fetch s e).length - (onrrpIdx fetch s e).length) none),
           ("ONRRP_CTPY_LIMIT", ffillList (onrrpPreCol fetch s e) ++
             List.replicate ((onrpIdx fetch s e).length - (onrrpIdx fetch s e).length) none),
           ("ONRP_AGG_LIMIT", ffillList (onrpPreCol fetch s e))]⟩ := by
  rw [show pull_fred fetch s e b
      = dropCols ["IORR", "IOER", "IORB"]
          (onrpStep (onrrpStep (genStep (fillStep b
            (unitStep (clipFrame s e (concatFrame fetch))))))) from rfl]
  rw [stageClip, stageUnit, stageFill, stageGen, stageOnrrp, stageOnrp]
  simp only [dropCols]
  rw [Frame.mk.injEq]
  refine ⟨rfl, ?_⟩
  rw [List.filter_append, dropFilter_mapNamed]
  refine congrArg₂ (fun a b => a ++ b) rfl ?_
  simp

/-! ### Reading the output frame -/

/-- The index evolution of a run of loc-assignments: each date already present
leaves the index unchanged, each absent date is appended at the end. -/
def injectDates (idx : List Nat) (ds : List Nat) : List Nat :=
  ds.foldl (fun a t => if t ∈ a then a else a ++ [t]) idx

/-- The timestamps of all manual overrides of the pipeline, in application
order: the eight ONRRP counterparty limit dates then the standing repo
facility date. -/
def overrideDates : List Nat := manual_ONRRP_cntypty_limits.map Prod.fst ++ [20210728]

theorem overrideSim_idx (sets : List (Nat × ℚ)) (st : List Nat × List Val) :
    (overrideSim sets st).1 = injectDates st.1 (sets.map Prod.fst) := by
  induction sets generalizing st with
  | nil => simp [overrideSim, injectDates]
  | cons p tl ih =>
    rw [overrideSim_cons]
    by_cases h : p.1 ∈ st.1
    · rw [if_pos h, ih]
      simp [injectDates, h]
    · rw [if_neg h, ih]
      simp [injectDates, h]

theorem injectDates_append (idx : List Nat) (ds₁ ds₂ : List Nat) :
    injectDates (injectDates idx ds₁) ds₂ = injectDates idx (ds₁ ++ ds₂) := by
  simp [injectDates, List.foldl_append]

theorem mem_injectDates {t : Nat} {idx ds : List Nat}
    (h : t ∈ injectDates idx ds) : t ∈ idx ∨ t ∈ ds := by
  induction ds generalizing idx with
  | nil => exact Or.inl h
  | cons d tl ih =>
    simp only [injectDates, List.foldl_cons] at h
    rcases ih h with h1 | h1
    · by_cases hd : d ∈ idx
      · rw [if_pos hd] at h1
        exact Or.inl h1
      · rw [if_neg hd] at h1
        rcases List.mem_append.mp h1 with h2 | h2
        · exact Or.inl h2
        · simp at h2
          exact Or.inr (by simp [h2])
    · exact Or.inr (List.mem_cons_of_mem _ h1)

theorem injectDates_nodup (idx : List Nat) (ds : List Nat) (h : idx.Nodup) :
    (injectDates idx ds).Nodup := by
  induction ds generalizing idx with
  | nil => exact h
  | cons d tl ih =>
    simp only [injectDates, List.foldl_cons]
    by_cases hd : d ∈ idx
    · rw [if_pos hd]
      exact ih idx h
    · rw [if_neg hd]
      exact ih _ (by simp [List.nodup_append, h, hd])

theorem injectDates_prefix (idx : List Nat) (ds : List Nat) :
    idx <+: injectDates idx ds := by
  induction ds generalizing idx with
  | nil => exact List.prefix_rfl
  | cons d tl ih =>
    simp only [injectDates, List.foldl_cons]
    by_cases hd : d ∈ idx
    · rw [if_pos hd]
      exact ih idx
    · rw [if_neg hd]
      exact List.IsPrefix.trans (List.prefix_append idx [d]) (ih _)

theorem onrrpIdx_eq_injectDates (fetch : String → List (Nat × Val)) (s e : Nat) :
    onrrpIdx fetch s e
      = injectDates (clipIdx fetch s e) (manual_ONRRP_cntypty_limits.map Prod.fst) := by
  rw [onrrpIdx, onrrpSim, overrideSim_idx]

theorem onrpIdx_eq_injectDates (fetch : String → List (Nat × Val)) (s e : Nat) :
    onrpIdx fetch s e = injectDates (clipIdx fetch s e) overrideDates := by
  rw [onrpIdx, onrpSim, overrideSim_idx, onrrpIdx_eq_injectDates, injectDates_append]
  rfl

theorem pull_fred_index (fetch : String → List (Nat × Val)) (s e : Nat) (b : Bool) :
    (pull_fred fetch s e b).index = onrpIdx fetch s e := by
  rw [pull_fred_char]

theorem pull_fred_colIds (fetch : String → List (Nat × Val)) (s e : Nat) (b : Bool) :
    (pull_fred fetch s e b).colIds
      = (series_to_pull.filter (fun c => !(["IORR", "IOER", "IORB"].contains c)))
        ++ ["Gen_IORB", "ONRRP_CTPY_LIMIT", "ONRP_AGG_LIMIT"] := by
  rw [pull_fred_char]
  simp [Frame.colIds, List.map_append, List.map_map, Function.comp_def]

/-- The full value of a kept source column in the returned frame: converted,
conditionally filled, padded with nulls for the appended override rows. -/
def keptColFull (b : Bool) (fetch : String → List (Nat × Val)) (s e : Nat)
    (c : String) : List Val :=
  (fillColM b fetch s e c ++
    List.replicate ((onrrpIdx fetch s e).length - (clipIdx fetch s e).length) none) ++
    List.replicate ((onrpIdx fetch s e).length - (onrrpIdx fetch s e).length) none

theorem pull_fred_col_src (fetch : String → List (Nat × Val)) (s e : Nat) (b : Bool)
    (c : String) (hc : c ∈ series_to_pull)
    (hk : (!(["IORR", "IOER", "IORB"].contains c)) = true) :
    (pull_fred fetch s e b).col c = keptColFull b fetch s e c := by
  rw [pull_fred_char]
  have hmem : c ∈ series_to_pull.filter (fun c => !(["IORR", "IOER", "IORB"].contains c)) :=
    List.mem_filter.mpr ⟨hc, hk⟩
  simp only [Frame.col, lookup_append_assoc, lookup_mapNamed, if_pos hmem]
  rfl

theorem pull_fred_col_gen (fetch : String → List (Nat × Val)) (s e : Nat) (b : Bool) :
    (pull_fred fetch s e b).col "Gen_IORB"
      = (genColM b fetch s e ++
          List.replicate ((onrrpIdx fetch s e).length - (clipIdx fetch s e).length) none) ++
          List.replicate ((onrpIdx fetch s e).length - (onrrpIdx fetch s e).length) none := by
  rw [pull_fred_char]
  have hnotmem : "Gen_IORB" ∉
      series_to_pull.filter (fun c => !(["IORR", "IOER", "IORB"].contains c)) := by
    intro h
    exact absurd (List.mem_filter.mp h).1 (by decide)
  simp only [Frame.col, lookup_append_assoc, lookup_mapNamed, if_neg hnotmem]
  rfl

theorem pull_fred_col_onrrp (fetch : String → List (Nat × Val)) (s e : Nat) (b : Bool) :
    (pull_fred fetch s e b).col "ONRRP_CTPY_LIMIT"
      = ffillList (onrrpPreCol fetch s e) ++
          List.replicate ((onrpIdx fetch s e).length - (onrrpIdx fetch s e).length) none := by
  rw [pull_fred_char]
  have hnotmem : "ONRRP_CTPY_LIMIT" ∉
      series_to_pull.filter (fun c => !(["IORR", "IOER", "IORB"].contains c)) := by
    intro h
    exact absurd (List.mem_filter.mp h).1 (by decide)
  simp only [Frame.col, lookup_append_assoc, lookup_mapNamed, if_neg hnotmem]
  rfl

theorem pull_fred_col_onrp (fetch : String → List (Nat × Val)) (s e : Nat) (b : Bool) :
    (pull_fred fetch s e b).col "ONRP_AGG_LIMIT" = ffillList (onrpPreCol fetch s e) := by
  rw [pull_fred_char]
  have hnotmem : "ONRP_AGG_LIMIT" ∉
      series_to_pull.filter (fun c => !(["IORR", "IOER", "IORB"].contains c)) := by
    intro h
    exact absurd (List.mem_filter.mp h).1 (by decide)
  simp only [Frame.col, lookup_append_assoc, lookup_mapNamed, if_neg hnotmem]
  rfl

/-! ### Concrete raw data used by counterexamples and witnesses -/

/-- A concrete fetched data set: GDP reports 5 on 2022-01-03, every other
series returns no observations. -/
def fetchC1 : String → List (Nat × Val) := fun c =>
  if c = "GDP" then [(20220103, some 5)] else []

set_option maxRecDepth 100000

/-- C9: the returned panel drops the raw reserve-rate columns IORR, IOER and
IORB and keeps every other pulled source column, followed by the derived
columns Gen_IORB, ONRRP_CTPY_LIMIT and ONRP_AGG_LIMIT, in order. -/
theorem claim_C9 (fetch : String → List (Nat × Val)) (s e : Nat) (b : Bool) :
    (pull_fred fetch s e b).colIds
      = ["GDP", "CPIAUCNS", "GDPC1", "DPCREDIT", "EFFR", "OBFR", "SOFR",
         "DFEDTARU", "DFEDTARL", "WALCL", "TOTRESNS", "TREAST", "CURRCIR",
         "GFDEBTN", "WTREGEN", "RRPONTSYAWARD", "RRPONTSYD", "RPONTSYD",
         "WSDONTL", "Gen_IORB", "ONRRP_CTPY_LIMIT", "ONRP_AGG_LIMIT"]
    ∧ "IORR" ∉ (pull_fred fetch s e b).colIds
    ∧ "IOER" ∉ (pull_fred fetch s e b).colIds
    ∧ "IORB" ∉ (pull_fred fetch s e b).colIds := by
  have h : (pull_fred fetch s e b).colIds
      = ["GDP", "CPIAUCNS", "GDPC1", "DPCREDIT", "EFFR", "OBFR", "SOFR",
         "DFEDTARU", "DFEDTARL", "WALCL", "TOTRESNS", "TREAST", "CURRCIR",
         "GFDEBTN", "WTREGEN", "RRPONTSYAWARD", "RRPONTSYD", "RPONTSYD",
         "WSDONTL", "Gen_IORB", "ONRRP_CTPY_LIMIT", "ONRP_AGG_LIMIT"] := by
    rw [pull_fred_colIds]
    decide
  refine ⟨h, ?_, ?_, ?_⟩ <;> rw [h] <;> decide

/-- C1 fails on the code: with the window 2022-01-01 to 2022-12-31 and a
single GDP observation inside it, the returned index contains the override
date 2013-09-22 (outside the window, because the override loc-assignments run
after clipping and append absent dates), and the index is not sorted. -/
theorem claim_C1_counterexample :
    ¬ (∀ t ∈ (pull_fred fetchC1 20220101 20221231 true).index,
        20220101 ≤ t ∧ t ≤ 20221231)
    ∧ ¬ (pull_fred fetchC1 20220101 20221231 true).index.Sorted (· ≤ ·) := by
  constructor
  · decide
  · decide

/-- C1 (amended): window clipping is performed first, right after index
unification and before unit conversion, fills and overrides; the later
loc-assignment of each override at a timestamp absent from the clipped index
appends a new row at the end.  The returned index is therefore the clipped
(sorted, duplicate-free) index followed by the absent override timestamps in
application order: it stays duplicate-free and the clipped part is a sorted
prefix, but rows need not lie within the requested window and the index need
not be sorted. -/
theorem claim_C1 (fetch : String → List (Nat × Val)) (s e : Nat) (b : Bool) :
    (pull_fred fetch s e b).index = injectDates (clipIdx fetch s e) overrideDates
    ∧ (∀ t ∈ (pull_fred fetch s e b).index, (s ≤ t ∧ t ≤ e) ∨ t ∈ overrideDates)
    ∧ clipIdx fetch s e <+: (pull_fred fetch s e b).index
    ∧ (clipIdx fetch s e).Sorted (· < ·)
    ∧ (pull_fred fetch s e b).index.Nodup := by
  have hidx := pull_fred_index fetch s e b
  refine ⟨by rw [hidx, onrpIdx_eq_injectDates], ?_, ?_,
    clipIdx_sorted fetch s e, ?_⟩
  · intro t ht
    rw [hidx, onrpIdx_eq_injectDates] at ht
    rcases mem_injectDates ht with h | h
    · exact Or.inl (mem_clipList (by simpa [clipIdx] using h))
    · exact Or.inr h
  · rw [hidx, onrpIdx_eq_injectDates]
    exact injectDates_prefix _ _
  · rw [hidx, onrpIdx_eq_injectDates]
    exact injectDates_nodup _ _ (clipIdx_nodup fetch s e)

/-- C1 witness: the amended statement evaluated at the concrete data of the
counterexample; the override date 2013-09-22 sits in the returned index and
is accounted for by the override clause. -/
theorem claim_C1_witness :
    (20130922 ∈ (pull_fred fetchC1 20220101 20221231 true).index)
    ∧ ((20220101 ≤ 20130922 ∧ 20130922 ≤ 20221231) ∨ 20130922 ∈ overrideDates) :=
  ⟨by decide,
   (claim_C1 fetchC1 20220101 20221231 true).2.1 20130922 (by decide)⟩

/-! ### Positional lemmas for the filled columns -/

theorem keptColFull_getElem (b : Bool) (fetch : String → List (Nat × Val))
    (s e : Nat) (c : String) (j : Nat) (hj : j < (clipIdx fetch s e).length) :
    (keptColFull b fetch s e c)[j]? = (fillColM b fetch s e c)[j]? := by
  rw [keptColFull, List.getElem?_append]
  rw [if_pos (by rw [List.length_append, fillColM_length]; omega)]
  rw [List.getElem?_append]
  rw [if_pos (by rw [fillColM_length]; omega)]

theorem foldl_carryStep_all_none (xs : List Val) (a : Val)
    (h : ∀ x ∈ xs, x = none) : xs.foldl carryStep a = a := by
  induction xs generalizing a with
  | nil => rfl
  | cons x tl ih =>
    have hx : x = none := h x (by simp)
    rw [List.foldl_cons, hx]
    exact ih a (fun y hy => h y (by simp [hy]))

theorem lastCarry_all_none (xs : List Val) (h : ∀ x ∈ xs, x = none) :
    lastCarry xs = none :=
  foldl_carryStep_all_none xs none h

/-- Membership versions of the forward-fill list facts used to place a column
among the kept source columns. -/
theorem forward_fill_sub_series : ∀ x ∈ forward_fill, x ∈ series_to_pull := by decide

theorem forward_fill_kept :
    ∀ x ∈ forward_fill, (!(["IORR", "IOER", "IORB"].contains x)) = true := by decide

theorem millions_sub_series : ∀ x ∈ millions_to_billions, x ∈ series_to_pull := by decide

theorem millions_kept :
    ∀ x ∈ millions_to_billions, (!(["IORR", "IOER", "IORB"].contains x)) = true := by
  decide

theorem notFilled_kept :
    ∀ x ∈ (["GDP", "CPIAUCNS", "GDPC1", "EFFR", "SOFR", "DFEDTARU",
        "DFEDTARL", "GFDEBTN", "RRPONTSYD", "RPONTSYD"] : List String),
      x ∈ series_to_pull ∧ x ∉ forward_fill
        ∧ (!(["IORR", "IOER", "IORB"].contains x)) = true := by
  decide

/-- C3: for every column under the carry-forward policy and every position of
the clipped index, a null cell is replaced by the most recent preceding
non-null value of the converted column; when additionally no preceding
non-null value exists the cell stays null (no backward fill); and the kept
columns outside the forward-fill list keep their raw (converted) values
unchanged. -/
theorem claim_C3 (fetch : String → List (Nat × Val)) (s e : Nat) (c : String)
    (hc : c ∈ forward_fill) (j : Nat) (hj : j < (clipIdx fetch s e).length) :
    (((convColM fetch s e c)[j]? = some none →
        ((pull_fred fetch s e true).col c)[j]?
          = some (lastCarry ((convColM fetch s e c).take j)))
      ∧ ((convColM fetch s e c)[j]? = some none →
          (∀ x ∈ (convColM fetch s e c).take j, x = none) →
          ((pull_fred fetch s e true).col c)[j]? = some none))
    ∧ ∀ c' ∈ (["GDP", "CPIAUCNS", "GDPC1", "EFFR", "SOFR", "DFEDTARU",
        "DFEDTARL", "GFDEBTN", "RRPONTSYD", "RPONTSYD"] : List String),
        ((pull_fred fetch s e true).col c')[j]? = (convColM fetch s e c')[j]? := by
  have hcol : ((pull_fred fetch s e true).col c)[j]?
      = some ((convColM fetch s e c).take (j + 1) |>.foldl carryStep none) := by
    rw [pull_fred_col_src fetch s e true c (forward_fill_sub_series c hc)
      (forward_fill_kept c hc)]
    rw [keptColFull_getElem _ _ _ _ _ _ hj]
    rw [show fillColM true fetch s e c = ffillList (convColM fetch s e c) by
      rw [fillColM, if_pos rfl, if_pos hc]]
    exact ffillList_getElem _ j (by rw [convColM_length]; omega)
  refine ⟨⟨?_, ?_⟩, ?_⟩
  · intro hnull
    rw [hcol, List.take_succ, hnull, List.foldl_append, lastCarry_eq_foldl]
    rfl
  · intro hnull hall
    have hall2 : ∀ x ∈ (convColM fetch s e c).take (j + 1), x = none := by
      rw [List.take_succ, hnull]
      intro x hx
      rcases List.mem_append.mp hx with h | h
      · exact hall x h
      · simpa using h
    rw [hcol, foldl_carryStep_all_none _ _ hall2]
  · intro c' hc'
    rcases notFilled_kept c' hc' with ⟨hser, hnf, hkept⟩
    rw [pull_fred_col_src fetch s e true c' hser hkept]
    rw [keptColFull_getElem _ _ _ _ _ _ hj]
    rw [show fillColM true fetch s e c' = convColM fetch s e c' by
      rw [fillColM, if_pos rfl, if_neg hnf]]

theorem zipWith_coalesce_replicate (n : Nat) :
    List.zipWith coalesce (List.replicate n none) (List.replicate n none)
      = List.replicate n none := by
  induction n with
  | zero => rfl
  | succ k ih => simp [List.replicate_succ, ih, coalesce]

theorem zipWith_getElem_some (f : Val → Val → Val) (as bs : List Val) (i : Nat)
    (a b : Val) (ha : as[i]? = some a) (hb : bs[i]? = some b) :
    (List.zipWith f as bs)[i]? = some (f a b) := by
  induction as generalizing bs i with
  | nil => simp at ha
  | cons x xs ih =>
    cases bs with
    | nil => simp at hb
    | cons y ys =>
      cases i with
      | zero =>
        simp only [List.getElem?_cons_zero, Option.some.injEq] at ha hb
        simp [ha, hb]
      | succ k =>
        simp only [List.getElem?_cons_succ] at ha hb
        simpa using ih ys k ha hb

/-- C4: the Gen_IORB column of the returned panel is the row-wise coalesce of
the (post-fill, padded) IORB and IOER columns as they stood just before the
drop: each cell takes the IORB value when non-null, else the IOER value, and
is null exactly when both are null. -/
theorem claim_C4 (fetch : String → List (Nat × Val)) (s e : Nat) (b : Bool) :
    (pull_fred fetch s e b).col "Gen_IORB"
      = List.zipWith coalesce (keptColFull b fetch s e "IORB")
          (keptColFull b fetch s e "IOER")
    ∧ ∀ (i : Nat) (p q : Val), (keptColFull b fetch s e "IORB")[i]? = some p →
        (keptColFull b fetch s e "IOER")[i]? = some q →
        ((pull_fred fetch s e b).col "Gen_IORB")[i]? = some (coalesce p q) := by
  have hmain : (pull_fred fetch s e b).col "Gen_IORB"
      = List.zipWith coalesce (keptColFull b fetch s e "IORB")
          (keptColFull b fetch s e "IOER") := by
    rw [pull_fred_col_gen, keptColFull, keptColFull, genColM]
    rw [List.zipWith_append _ _ _ _ _
      (by rw [List.length_append, List.length_append, fillColM_length, fillColM_length])]
    rw [List.zipWith_append _ _ _ _ _
      (by rw [fillColM_length, fillColM_length])]
    rw [zipWith_coalesce_replicate, zipWith_coalesce_replicate]
  refine ⟨hmain, ?_⟩
  intro i p q hp hq
  rw [hmain]
  exact zipWith_getElem_some coalesce _ _ i p q hp hq

/-- C5 (amended, positive part): within a single run, the unit conversion of a
declared millions-to-billions column is applied exactly once — a single
division by 1000 of the raw clipped values — and before the forward fill. -/
theorem claim_C5 (fetch : String → List (Nat × Val)) (s e : Nat) (c : String)
    (hc : c ∈ millions_to_billions) (j : Nat)
    (hj : j < (clipIdx fetch s e).length) :
    ((pull_fred fetch s e true).col c)[j]?
      = (if c ∈ forward_fill
          then ffillList ((rawColM fetch s e c).map (Option.map (fun q => q / 1000)))
          else (rawColM fetch s e c).map (Option.map (fun q => q / 1000)))[j]? := by
  rw [pull_fred_col_src fetch s e true c (millions_sub_series c hc)
    (millions_kept c hc)]
  rw [keptColFull_getElem _ _ _ _ _ _ hj]
  rw [show fillColM true fetch s e c
      = (if c ∈ forward_fill
          then ffillList ((rawColM fetch s e c).map (Option.map (fun q => q / 1000)))
          else (rawColM fetch s e c).map (Option.map (fun q => q / 1000))) by
    rw [fillColM, if_pos rfl, convColM, if_pos hc]]

/-- Concrete raw data: two GDP observations, one OBFR observation and one
IOER observation inside the 2022 window. -/
def fetchC3 : String → List (Nat × Val) := fun c =>
  if c = "GDP" then [(20220103, some 5), (20220105, some 6)]
  else if c = "OBFR" then [(20220103, some 3)]
  else if c = "IOER" then [(20220103, some 7)]
  else []

/-- Concrete raw data: a single TREAST observation of 1000 (millions). -/
def fetchB : String → List (Nat × Val) := fun c =>
  if c = "TREAST" then [(20220103, some 1000)] else []

/-- C3 witness: with one OBFR observation on 2022-01-03 and a second index row
on 2022-01-05, the null OBFR cell at position 1 is filled with the preceding
observation 3. -/
theorem claim_C3_witness :
    ("OBFR" ∈ forward_fill) ∧ 1 < (clipIdx fetchC3 20220101 20221231).length
    ∧ ((pull_fred fetchC3 20220101 20221231 true).col "OBFR")[1]?
        = some (lastCarry ((convColM fetchC3 20220101 20221231 "OBFR").take 1))
    ∧ lastCarry ((convColM fetchC3 20220101 20221231 "OBFR").take 1) = some 3 :=
  ⟨by decide, by decide,
   ((claim_C3 fetchC3 20220101 20221231 "OBFR" (by decide) 1 (by decide)).1).1
     (by decide),
   by decide⟩

/-- C4 witness: with IORB absent and IOER equal to 7 on 2022-01-03, the
Gen_IORB cell falls back to the IOER value. -/
theorem claim_C4_witness :
    ((pull_fred fetchC3 20220101 20221231 true).col "Gen_IORB")[0]?
      = some (coalesce none (some 7)) := by
  have hp : (keptColFull true fetchC3 20220101 20221231 "IORB")[0]? = some none := by
    rw [keptColFull_getElem _ _ _ _ _ _ (by decide)]
    decide
  have hq : (keptColFull true fetchC3 20220101 20221231 "IOER")[0]?
      = some (some 7) := by
    rw [keptColFull_getElem _ _ _ _ _ _ (by decide)]
    decide
  exact (claim_C4 fetchC3 20220101 20221231 true).2 0 none (some 7) hp hq

/-- C5 fails on the code as stated: running the pipeline on its own output
divides TREAST by 1000 a second time — the first run turns the raw 1000 into
1000/1000, the second run turns that into 1000/1000/1000, a different
number. -/
theorem claim_C5_counterexample :
    ((pull_fred fetchB 20220101 20221231 true).col "TREAST")[0]?
      = some (some ((1000 : ℚ) / 1000))
    ∧ ((pull_fred (frameToFetch (pull_fred fetchB 20220101 20221231 true))
          20220101 20221231 true).col "TREAST")[0]?
      = some (some ((1000 : ℚ) / 1000 / 1000))
    ∧ (1000 : ℚ) / 1000 / 1000 ≠ (1000 : ℚ) / 1000 :=
  ⟨rfl, rfl, by norm_num⟩

/-- C5 witness: the single-conversion closed form evaluated for TREAST at the
first clipped position of the concrete data. -/
theorem claim_C5_witness :
    ("TREAST" ∈ millions_to_billions)
    ∧ 0 < (clipIdx fetchB 20220101 20221231).length
    ∧ ((pull_fred fetchB 20220101 20221231 true).col "TREAST")[0]?
      = (if "TREAST" ∈ forward_fill
          then ffillList ((rawColM fetchB 20220101 20221231 "TREAST").map
            (Option.map (fun q => q / 1000)))
          else (rawColM fetchB 20220101 20221231 "TREAST").map
            (Option.map (fun q => q / 1000)))[0]? :=
  ⟨by decide, by decide,
   claim_C5 fetchB 20220101 20221231 "TREAST" (by decide) 0 (by decide)⟩

/-! ### Positions of timestamps in an index -/

/-- The position of the first occurrence of a timestamp in an index. -/
def posOf (t : Nat) : List Nat → Option Nat
  | [] => none
  | u :: tl => if u = t then some 0 else (posOf t tl).map (fun i => i + 1)

theorem posOf_getElem {t : Nat} {idx : List Nat} {i : Nat}
    (h : posOf t idx = some i) : idx[i]? = some t := by
  induction idx generalizing i with
  | nil => simp [posOf] at h
  | cons u tl ih =>
    by_cases hu : u = t
    · simp only [posOf, if_pos hu] at h
      have h0 : i = 0 := (Option.some.inj h).symm
      subst h0
      simp [hu]
    · simp only [posOf, if_neg hu] at h
      cases hp : posOf t tl with
      | none => rw [hp] at h; simp at h
      | some k =>
        rw [hp] at h
        simp only [Option.map_some'] at h
        have hk : k + 1 = i := Option.some.inj h
        subst hk
        simpa using ih hp

theorem posOf_lt_length {t : Nat} {idx : List Nat} {i : Nat}
    (h : posOf t idx = some i) : i < idx.length := by
  have h2 := posOf_getElem h
  by_contra hn
  rw [List.getElem?_eq_none (by omega)] at h2
  exact Option.noConfusion h2

theorem posOf_mem {t : Nat} {idx : List Nat} (h : t ∈ idx) :
    ∃ i, posOf t idx = some i := by
  induction idx with
  | nil => simp at h
  | cons u tl ih =>
    by_cases hu : u = t
    · exact ⟨0, by simp [posOf, hu]⟩
    · have ht : t ∈ tl := by
        rcases List.mem_cons.mp h with h1 | h1
        · exact absurd h1.symm hu
        · exact h1
      rcases ih ht with ⟨k, hk⟩
      exact ⟨k + 1, by simp [posOf, hu, hk]⟩

theorem posOf_append_left {t : Nat} {l₁ l₂ : List Nat} (h : t ∈ l₁) :
    posOf t (l₁ ++ l₂) = posOf t l₁ := by
  induction l₁ with
  | nil => simp at h
  | cons u tl ih =>
    by_cases hu : u = t
    · simp [posOf, hu]
    · have ht : t ∈ tl := by
        rcases List.mem_cons.mp h with h1 | h1
        · exact absurd h1.symm hu
        · exact h1
      simp [posOf, hu, ih ht]

theorem posOf_append_self {t : Nat} {l : List Nat} (h : t ∉ l) :
    posOf t (l ++ [t]) = some l.length := by
  induction l with
  | nil => simp [posOf]
  | cons u tl ih =>
    have hu : u ≠ t := by
      intro he
      exact h (by simp [he])
    have ht : t ∉ tl := fun hm => h (List.mem_cons_of_mem _ hm)
    simp [posOf, hu, ih ht]

theorem mem_of_getElem? {a : Nat} {l : List Nat} {i : Nat}
    (h : l[i]? = some a) : a ∈ l := by
  induction l generalizing i with
  | nil => simp at h
  | cons x tl ih =>
    cases i with
    | zero =>
      simp only [List.getElem?_cons_zero, Option.some.injEq] at h
      simp [h]
    | succ k =>
      simp only [List.getElem?_cons_succ] at h
      exact List.mem_cons_of_mem _ (ih h)

theorem nodup_getElem_unique {l : List Nat} (hnd : l.Nodup) {i j : Nat} {a : Nat}
    (hi : l[i]? = some a) (hj : l[j]? = some a) : i = j := by
  induction l generalizing i j with
  | nil => simp at hi
  | cons x tl ih =>
    rcases List.nodup_cons.mp hnd with ⟨hx, htl⟩
    cases i with
    | zero =>
      cases j with
      | zero => rfl
      | succ k =>
        simp only [List.getElem?_cons_zero, Option.some.injEq] at hi
        simp only [List.getElem?_cons_succ] at hj
        exact absurd (hi ▸ mem_of_getElem? hj) hx
    | succ k =>
      cases j with
      | zero =>
        simp only [List.getElem?_cons_zero, Option.some.injEq] at hj
        simp only [List.getElem?_cons_succ] at hi
        exact absurd (hj ▸ mem_of_getElem? hi) hx
      | succ m =>
        simp only [List.getElem?_cons_succ] at hi hj
        exact congrArg (· + 1) (ih htl hi hj)

/-! ### Positional behaviour of loc-assignment runs -/

theorem setWhere_getElem_eq {idx : List Nat} {t : Nat} {v : ℚ} {col : List Val}
    {i : Nat} {x : Val} (hidx : idx[i]? = some t) (hcol : col[i]? = some x) :
    (setWhere idx t v col)[i]? = some (some v) := by
  induction idx generalizing col i with
  | nil => simp at hidx
  | cons u tl ih =>
    cases col with
    | nil => simp at hcol
    | cons y ys =>
      cases i with
      | zero =>
        simp only [List.getElem?_cons_zero, Option.some.injEq] at hidx
        simp [setWhere, hidx]
      | succ k =>
        simp only [List.getElem?_cons_succ] at hidx hcol
        simpa [setWhere] using ih hidx hcol

theorem setWhere_getElem_ne {idx : List Nat} {t u : Nat} {v : ℚ} {col : List Val}
    {i : Nat} (hidx : idx[i]? = some u) (hu : u ≠ t) :
    (setWhere idx t v col)[i]? = col[i]? := by
  induction idx generalizing col i with
  | nil => simp at hidx
  | cons w tl ih =>
    cases col with
    | nil => simp [setWhere]
    | cons y ys =>
      cases i with
      | zero =>
        simp only [List.getElem?_cons_zero, Option.some.injEq] at hidx
        subst hidx
        simp [setWhere, hu]
      | succ k =>
        simp only [List.getElem?_cons_succ] at hidx
        simpa [setWhere] using ih hidx

theorem overrideSim_preserve (sets : List (Nat × ℚ)) (st : List Nat × List Val)
    (t : Nat) (i : Nat) (hnot : t ∉ sets.map Prod.fst)
    (hidx : st.1[i]? = some t) (hlen : st.2.length = st.1.length) :
    (overrideSim sets st).2[i]? = st.2[i]? := by
  induction sets generalizing st with
  | nil => rfl
  | cons p tl ih =>
    have hne : t ≠ p.1 := by
      intro he
      exact hnot (by simp [he])
    have hnot2 : t ∉ tl.map Prod.fst := fun hm => hnot (by simp [hm])
    rw [overrideSim_cons]
    by_cases hm : p.1 ∈ st.1
    · rw [if_pos hm]
      rw [ih (st.1, setWhere st.1 p.1 p.2 st.2) hnot2 hidx
        (by simp [setWhere_length_min, hlen])]
      exact setWhere_getElem_ne hidx hne
    · rw [if_neg hm]
      have hi : i < st.1.length := by
        by_contra hn
        rw [List.getElem?_eq_none (by omega)] at hidx
        exact Option.noConfusion hidx
      rw [ih (st.1 ++ [p.1], st.2 ++ [some p.2]) hnot2
        (by rw [List.getElem?_append]; rw [if_pos hi]; exact hidx)
        (by simp [hlen])]
      rw [List.getElem?_append]
      rw [if_pos (by omega)]

theorem overrideSim_set (sets : List (Nat × ℚ)) (st : List Nat × List Val)
    (t : Nat) (v : ℚ) (i : Nat)
    (hndates : (sets.map Prod.fst).Nodup)
    (hmem : (t, v) ∈ sets) (hidx : st.1[i]? = some t)
    (hlen : st.2.length = st.1.length) :
    (overrideSim sets st).2[i]? = some (some v) := by
  induction sets generalizing st with
  | nil => simp at hmem
  | cons p tl ih =>
    have hi : i < st.1.length := by
      by_contra hn
      rw [List.getElem?_eq_none (by omega)] at hidx
      exact Option.noConfusion hidx
    rcases List.mem_cons.mp hmem with heq | hmem2
    · -- the head assignment sets this cell; the tail never touches t again
      subst heq
      have hnot : t ∉ tl.map Prod.fst := by
        have h1 := (List.nodup_cons.mp hndates).1
        simpa using h1
      rw [overrideSim_cons]
      rw [if_pos (mem_of_getElem? hidx)]
      rw [overrideSim_preserve tl (st.1, setWhere st.1 (t, v).1 (t, v).2 st.2)
        t i hnot hidx (by simp [setWhere_length_min, hlen])]
      have hx : ∃ x, st.2[i]? = some x := by
        have h2 : i < st.2.length := by omega
        exact ⟨st.2[i], List.getElem?_eq_some_iff.mpr ⟨h2, rfl⟩⟩
      rcases hx with ⟨x, hx⟩
      exact setWhere_getElem_eq hidx hx
    · -- the assignment is in the tail; the head step keeps the cell aligned
      rw [overrideSim_cons]
      by_cases hm : p.1 ∈ st.1
      · rw [if_pos hm]
        rw [ih (st.1, setWhere st.1 p.1 p.2 st.2)
          (List.nodup_cons.mp hndates).2 hmem2 hidx
          (by simp [setWhere_length_min, hlen])]
      · rw [if_neg hm]
        rw [ih (st.1 ++ [p.1], st.2 ++ [some p.2])
          (List.nodup_cons.mp hndates).2 hmem2
          (by rw [List.getElem?_append]; rw [if_pos hi]; exact hidx)
          (by simp [hlen])]

theorem foldl_carryStep_last_some (ys : List Val) (v : ℚ)
    (h : ∀ x ∈ ys, x = none) :
    (ys.foldl carryStep (some v)) = some v :=
  foldl_carryStep_all_none ys (some v) h

theorem ffill_const_after (xs : List Val) (i : Nat) (v : ℚ)
    (hi : xs[i]? = some (some v))
    (hafter : ∀ k, i < k → k < xs.length → xs[k]? = some none) :
    ∀ j, i ≤ j → j < xs.length → (ffillList xs)[j]? = some (some v) := by
  intro j hij hj
  have hilen : i < xs.length := by
    by_contra hn
    rw [List.getElem?_eq_none (by omega)] at hi
    exact Option.noConfusion hi
  rw [ffillList_getElem xs j hj]
  have hsplit : xs.take (j + 1)
      = xs.take (i + 1) ++ (xs.take (j + 1)).drop (i + 1) := by
    conv_lhs => rw [← List.take_append_drop (i + 1) (xs.take (j + 1))]
    rw [List.take_take]
    rw [show min (i + 1) (j + 1) = i + 1 by omega]
  rw [hsplit, List.foldl_append]
  have hfirst : (xs.take (i + 1)).foldl carryStep none = some v := by
    rw [List.take_succ, List.foldl_append, hi]
    rfl
  rw [hfirst]
  refine congrArg some ?_
  apply foldl_carryStep_last_some
  intro x hx
  rcases (List.mem_iff_getElem?).mp hx with ⟨k, hk⟩
  rw [List.getElem?_drop, List.getElem?_take] at hk
  by_cases hklt : i + 1 + k < j + 1
  · rw [if_pos hklt] at hk
    have hkbound : i + 1 + k < xs.length := by
      by_contra hn
      rw [List.getElem?_eq_none (by omega)] at hk
      exact Option.noConfusion hk
    have hnone := hafter (i + 1 + k) (by omega) hkbound
    rw [hnone] at hk
    exact (Option.some.inj hk).symm
  · rw [if_neg hklt] at hk
    exact Option.noConfusion hk

theorem onrrpIdx_nodup (fetch : String → List (Nat × Val)) (s e : Nat) :
    (onrrpIdx fetch s e).Nodup := by
  rw [onrrpIdx_eq_injectDates]
  exact injectDates_nodup _ _ (clipIdx_nodup fetch s e)

/-- Shared propagation helper: from the position of 2021-07-28 in the final
index on, every cell of the forward-filled ONRP_AGG_LIMIT column is 500. -/
theorem onrp_propagation (fetch : String → List (Nat × Val)) (s e : Nat)
    (i j : Nat) (hpos : posOf 20210728 (onrpIdx fetch s e) = some i)
    (hij : i ≤ j) (hj : j < (onrpIdx fetch s e).length) :
    (ffillList (onrpPreCol fetch s e))[j]? = some (some 500) := by
  rw [onrpPreCol, onrpSim] at *
  rw [onrpIdx, onrpSim] at hpos hj
  simp only [overrideSim, List.foldl_cons, List.foldl_nil] at *
  by_cases hm : 20210728 ∈ onrrpIdx fetch s e
  · rw [if_pos hm] at hpos hj ⊢
    simp only at hpos hj ⊢
    have hgt := posOf_getElem hpos
    have hilt := posOf_lt_length hpos
    apply ffill_const_after _ i 500
    · exact setWhere_getElem_eq hgt (by
        rw [List.getElem?_replicate]
        rw [if_pos hilt])
    · intro k hik hk
      rw [setWhere_length_min, List.length_replicate, Nat.min_self] at hk
      have hgk : ∃ u, (onrrpIdx fetch s e)[k]? = some u := by
        exact ⟨(onrrpIdx fetch s e)[k], List.getElem?_eq_some_iff.mpr ⟨hk, rfl⟩⟩
      rcases hgk with ⟨u, hu⟩
      have hune : u ≠ 20210728 := by
        intro he
        subst he
        have := nodup_getElem_unique (onrrpIdx_nodup fetch s e) hu hgt
        omega
      rw [setWhere_getElem_ne hu hune]
      rw [List.getElem?_replicate, if_pos hk]
    · exact hij
    · rw [setWhere_length_min, List.length_replicate, Nat.min_self]
      simpa using hj
  · rw [if_neg hm] at hpos hj ⊢
    simp only at hpos hj ⊢
    have hposM := posOf_append_self hm
    rw [hposM] at hpos
    have hiM : i = (onrrpIdx fetch s e).length := (Option.some.inj hpos).symm
    subst hiM
    apply ffill_const_after _ (onrrpIdx fetch s e).length 500
    · rw [List.getElem?_append]
      rw [if_neg (by simp)]
      simp
    · intro k hik hk
      simp only [List.length_append, List.length_replicate,
        List.length_singleton] at hk
      omega
    · exact hij
    · simpa using hj

theorem mem_injectDates_right {t : Nat} {ds : List Nat} (h : t ∈ ds) :
    ∀ idx, t ∈ injectDates idx ds := by
  induction ds with
  | nil => simp at h
  | cons d tl ih =>
    intro idx
    simp only [injectDates, List.foldl_cons]
    rcases List.mem_cons.mp h with he | hm
    · subst he
      by_cases hd : t ∈ idx
      · rw [if_pos hd]
        have hp := injectDates_prefix idx tl
        exact hp.sublist.subset hd
      · rw [if_neg hd]
        have hp := injectDates_prefix (idx ++ [t]) tl
        exact hp.sublist.subset (by simp)
    · exact ih hm _

theorem onrpIdx_eq_inject_onrrp (fetch : String → List (Nat × Val)) (s e : Nat) :
    onrpIdx fetch s e = injectDates (onrrpIdx fetch s e) [20210728] := by
  rw [onrpIdx, onrpSim, overrideSim_idx]
  rfl

theorem onrpIdx_nodup (fetch : String → List (Nat × Val)) (s e : Nat) :
    (onrpIdx fetch s e).Nodup := by
  rw [onrpIdx_eq_injectDates]
  exact injectDates_nodup _ _ (clipIdx_nodup fetch s e)

/-- Forward-fill propagation up to a position: a non-null value at i reaches
any later position j when all cells strictly between i and j are null. -/
theorem ffill_const_upto (xs : List Val) (i j : Nat) (v : ℚ)
    (hi : xs[i]? = some (some v)) (hij : i ≤ j) (hj : j < xs.length)
    (hmid : ∀ k, i < k → k ≤ j → xs[k]? = some none) :
    (ffillList xs)[j]? = some (some v) := by
  have hilen : i < xs.length := by
    by_contra hn
    rw [List.getElem?_eq_none (by omega)] at hi
    exact Option.noConfusion hi
  rw [ffillList_getElem xs j hj]
  have hsplit : xs.take (j + 1)
      = xs.take (i + 1) ++ (xs.take (j + 1)).drop (i + 1) := by
    conv_lhs => rw [← List.take_append_drop (i + 1) (xs.take (j + 1))]
    rw [List.take_take]
    rw [show min (i + 1) (j + 1) = i + 1 by omega]
  rw [hsplit, List.foldl_append]
  have hfirst : (xs.take (i + 1)).foldl carryStep none = some v := by
    rw [List.take_succ, List.foldl_append, hi]
    rfl
  rw [hfirst]
  refine congrArg some ?_
  apply foldl_carryStep_last_some
  intro x hx
  rcases (List.mem_iff_getElem?).mp hx with ⟨k, hk⟩
  rw [List.getElem?_drop, List.getElem?_take] at hk
  by_cases hklt : i + 1 + k < j + 1
  · rw [if_pos hklt] at hk
    have hnone := hmid (i + 1 + k) (by omega) (by omega)
    rw [hnone] at hk
    exact (Option.some.inj hk).symm
  · rw [if_neg hklt] at hk
    exact Option.noConfusion hk

/-- A position of the ONRRP-stage index whose timestamp is not an override
date carries a null in the pre-fill ONRRP_CTPY_LIMIT column. -/
theorem onrrpPreCol_none (fetch : String → List (Nat × Val)) (s e : Nat)
    (k w : Nat) (hklt : k < (onrrpIdx fetch s e).length)
    (hw : (onrpIdx fetch s e)[k]? = some w)
    (hnot : w ∉ manual_ONRRP_cntypty_limits.map Prod.fst) :
    (onrrpPreCol fetch s e)[k]? = some none := by
  obtain ⟨suf, hsuf⟩ : onrrpIdx fetch s e <+: onrpIdx fetch s e := by
    rw [onrpIdx_eq_inject_onrrp]
    exact injectDates_prefix _ _
  have hw2 : (onrrpIdx fetch s e)[k]? = some w := by
    rw [← hsuf, List.getElem?_append, if_pos hklt] at hw
    exact hw
  have hwc : w ∈ clipIdx fetch s e := by
    have hwm := mem_of_getElem? hw2
    rw [onrrpIdx_eq_injectDates] at hwm
    rcases mem_injectDates hwm with h | h
    · exact h
    · exact absurd h hnot
  obtain ⟨k2, hk2⟩ := posOf_mem hwc
  have hk2get := posOf_getElem hk2
  have hk2lt := posOf_lt_length hk2
  obtain ⟨suf1, hsuf1⟩ : clipIdx fetch s e <+: onrrpIdx fetch s e := by
    rw [onrrpIdx_eq_injectDates]
    exact injectDates_prefix _ _
  have hk2get2 : (onrrpIdx fetch s e)[k2]? = some w := by
    rw [← hsuf1, List.getElem?_append, if_pos hk2lt]
    exact hk2get
  have hkk : k = k2 := nodup_getElem_unique (onrrpIdx_nodup fetch s e) hw2 hk2get2
  subst hkk
  rw [onrrpPreCol, onrrpSim]
  rw [overrideSim_preserve manual_ONRRP_cntypty_limits
    (clipIdx fetch s e, List.replicate (clipIdx fetch s e).length none)
    w k hnot hk2get (by simp)]
  rw [List.getElem?_replicate, if_pos hk2lt]

/-- Concrete raw data for the override claims: a single GDP observation on
the first ONRRP limit date 2013-09-22. -/
def fetchC2 : String → List (Nat × Val) := fun c =>
  if c = "GDP" then [(20130922, some 1)] else []

/-- A second fetched data set for the propagation witness: GDP observed on
2013-09-22 and 2013-09-25, so the clipped index has a non-override date
strictly after an override date. -/
def fetchC2b : String → List (Nat × Val) := fun c =>
  if c = "GDP" then [(20130922, some 1), (20130925, some 2)] else []

/-- C2: (a) every manual ONRRP limit whose date already lies in the clipped
panel index overwrites that cell of ONRRP_CTPY_LIMIT with its declared value;
(b) that override value then propagates forward by the unconditional fill of
line 151 into every subsequent null of the column: any later position whose
timestamp existed at fill time (a clipped-window date or an override date)
and with no other override date strictly in between also carries the value
(the one position outside that scope is the row appended afterwards by the
ONRP_AGG_LIMIT assignment of line 155, whose ONRRP cell the code leaves
null); (c) the ONRP_AGG_LIMIT override value 500 propagates forward from its
effective position into every later row of the column. -/
theorem claim_C2 (fetch : String → List (Nat × Val)) (s e : Nat) (b : Bool) :
    (∀ t v, (t, v) ∈ manual_ONRRP_cntypty_limits → t ∈ clipIdx fetch s e →
      ∀ i, posOf t (pull_fred fetch s e b).index = some i →
        ((pull_fred fetch s e b).col "ONRRP_CTPY_LIMIT")[i]? = some (some v))
    ∧ (∀ t v, (t, v) ∈ manual_ONRRP_cntypty_limits → t ∈ clipIdx fetch s e →
      ∀ i, posOf t (pull_fred fetch s e b).index = some i →
      ∀ j u, i ≤ j → (pull_fred fetch s e b).index[j]? = some u →
        (u ∈ clipIdx fetch s e ∨ u ∈ manual_ONRRP_cntypty_limits.map Prod.fst) →
        (∀ k w, i < k → k ≤ j → (pull_fred fetch s e b).index[k]? = some w →
          w ∉ manual_ONRRP_cntypty_limits.map Prod.fst) →
        ((pull_fred fetch s e b).col "ONRRP_CTPY_LIMIT")[j]? = some (some v))
    ∧ (∀ i j, posOf 20210728 (pull_fred fetch s e b).index = some i →
        i ≤ j → j < (pull_fred fetch s e b).index.length →
        ((pull_fred fetch s e b).col "ONRP_AGG_LIMIT")[j]? = some (some 500)) := by
  refine ⟨?_, ?_, ?_⟩
  · intro t v hmem htclip i hpos
    rw [pull_fred_index] at hpos
    have hpre : clipIdx fetch s e <+: onrpIdx fetch s e := by
      rw [onrpIdx_eq_injectDates]
      exact injectDates_prefix _ _
    rcases hpre with ⟨suffix, hsuf⟩
    rw [← hsuf, posOf_append_left htclip] at hpos
    have hget := posOf_getElem hpos
    have hilt := posOf_lt_length hpos
    rw [pull_fred_col_onrrp]
    rw [List.getElem?_append]
    rw [if_pos (by
      rw [ffillList_length, onrrpPreCol_length]
      have := clipIdx_length_le_onrrpIdx fetch s e
      omega)]
    apply ffillList_getElem_some
    rw [onrrpPreCol, onrrpSim]
    apply overrideSim_set _ _ t v i (by decide) hmem
    · exact hget
    · simp
  · intro t v hmem htclip i hpos j u hij hju humem hmid
    simp only [pull_fred_index] at hpos hju hmid
    -- position j lies in the ONRRP-stage index: its timestamp is there
    have humem2 : u ∈ onrrpIdx fetch s e := by
      rcases humem with h | h
      · have hpre1 : clipIdx fetch s e <+: onrrpIdx fetch s e := by
          rw [onrrpIdx_eq_injectDates]
          exact injectDates_prefix _ _
        exact hpre1.sublist.subset h
      · rw [onrrpIdx_eq_injectDates]
        exact mem_injectDates_right h _
    obtain ⟨i2, hpos2⟩ := posOf_mem humem2
    have hi2get := posOf_getElem hpos2
    have hi2lt := posOf_lt_length hpos2
    obtain ⟨suf2, hsuf2⟩ : onrrpIdx fetch s e <+: onrpIdx fetch s e := by
      rw [onrpIdx_eq_inject_onrrp]
      exact injectDates_prefix _ _
    have hi2get2 : (onrpIdx fetch s e)[i2]? = some u := by
      rw [← hsuf2, List.getElem?_append, if_pos hi2lt]
      exact hi2get
    have hjeq : j = i2 := nodup_getElem_unique (onrpIdx_nodup fetch s e) hju hi2get2
    have hjlt : j < (onrrpIdx fetch s e).length := hjeq ▸ hi2lt
    -- the overridden cell of the pre-fill column
    have hpre : clipIdx fetch s e <+: onrpIdx fetch s e := by
      rw [onrpIdx_eq_injectDates]
      exact injectDates_prefix _ _
    rcases hpre with ⟨suffix, hsuf⟩
    rw [← hsuf, posOf_append_left htclip] at hpos
    have hget := posOf_getElem hpos
    have hcell : (onrrpPreCol fetch s e)[i]? = some (some v) := by
      rw [onrrpPreCol, onrrpSim]
      apply overrideSim_set _ _ t v i (by decide) hmem
      · exact hget
      · simp
    rw [pull_fred_col_onrrp]
    rw [List.getElem?_append]
    rw [if_pos (by
      rw [ffillList_length, onrrpPreCol_length]
      omega)]
    apply ffill_const_upto _ i j v hcell hij
    · rw [onrrpPreCol_length]
      omega
    · intro k hik hkj
      have hkup : k < (onrpIdx fetch s e).length := by
        have := onrrpIdx_length_le_onrpIdx fetch s e
        omega
      obtain ⟨w, hw⟩ : ∃ w, (onrpIdx fetch s e)[k]? = some w :=
        ⟨(onrpIdx fetch s e)[k], List.getElem?_eq_some_iff.mpr ⟨hkup, rfl⟩⟩
      exact onrrpPreCol_none fetch s e k w (by omega) hw (hmid k w hik hkj hw)
  · intro i j hpos hij hj
    rw [pull_fred_index] at hpos hj
    rw [pull_fred_col_onrp]
    exact onrp_propagation fetch s e i j hpos hij hj

/-- C2 witness: with the clipped index [2013-09-22], the ONRRP limit 0 of
that date lands in the cell at position 0; with the clipped index
[2013-09-22, 2013-09-25] that override value propagates forward into the null
at the non-override date 2013-09-25 (position 1); and position 8 (the
appended 2021-07-28 row) of ONRP_AGG_LIMIT carries 500. -/
theorem claim_C2_witness :
    ((pull_fred fetchC2 20130101 20131231 true).col "ONRRP_CTPY_LIMIT")[0]?
      = some (some 0)
    ∧ ((pull_fred fetchC2b 20130101 20131231 true).col "ONRRP_CTPY_LIMIT")[1]?
      = some (some 0)
    ∧ ((pull_fred fetchC2 20130101 20131231 true).col "ONRP_AGG_LIMIT")[8]?
      = some (some 500) :=
  ⟨(claim_C2 fetchC2 20130101 20131231 true).1 20130922 0 (by decide) (by decide)
     0 (by decide),
   (claim_C2 fetchC2b 20130101 20131231 true).2.1 20130922 0 (by decide)
     (by decide) 0 (by decide) 1 20130925 (by decide) (by decide)
     (Or.inl (by decide))
     (by
       intro k w h1 h2 hw
       have hk1 : k = 1 := by omega
       subst hk1
       have he : (pull_fred fetchC2b 20130101 20131231 true).index[1]?
           = some 20130925 := by decide
       rw [he] at hw
       have hw2 := Option.some.inj hw
       subst hw2
       decide),
   (claim_C2 fetchC2 20130101 20131231 true).2.2 8 8 (by decide) (by decide)
     (by decide)⟩

/-- C10: the ffill flag of pull_fred defaults to True; with ffill=False the
nine forward-fill columns keep their raw (converted) values at every clipped
position, while the override columns ONRRP_CTPY_LIMIT and ONRP_AGG_LIMIT are
still forward-filled unconditionally — they coincide with the ffill=True run,
and the 500 override still propagates forward. -/
theorem claim_C10 (fetch : String → List (Nat × Val)) (s e : Nat) :
    (pull_fred fetch s e = pull_fred fetch s e true)
    ∧ (∀ c ∈ forward_fill, ∀ j, j < (clipIdx fetch s e).length →
        ((pull_fred fetch s e false).col c)[j]? = (convColM fetch s e c)[j]?)
    ∧ ((pull_fred fetch s e false).col "ONRRP_CTPY_LIMIT"
        = (pull_fred fetch s e true).col "ONRRP_CTPY_LIMIT")
    ∧ ((pull_fred fetch s e false).col "ONRP_AGG_LIMIT"
        = (pull_fred fetch s e true).col "ONRP_AGG_LIMIT")
    ∧ (∀ i j, posOf 20210728 (pull_fred fetch s e false).index = some i →
        i ≤ j → j < (pull_fred fetch s e false).index.length →
        ((pull_fred fetch s e false).col "ONRP_AGG_LIMIT")[j]? = some (some 500)) := by
  refine ⟨rfl, ?_, ?_, ?_, ?_⟩
  · intro c hc j hj
    rw [pull_fred_col_src fetch s e false c (forward_fill_sub_series c hc)
      (forward_fill_kept c hc)]
    rw [keptColFull_getElem _ _ _ _ _ _ hj]
    rw [show fillColM false fetch s e c = convColM fetch s e c by
      rw [fillColM, if_neg (by decide)]]
  · rw [pull_fred_col_onrrp, pull_fred_col_onrrp]
  · rw [pull_fred_col_onrp, pull_fred_col_onrp]
  · intro i j hpos hij hj
    rw [pull_fred_index] at hpos hj
    rw [pull_fred_col_onrp]
    exact onrp_propagation fetch s e i j hpos hij hj

/-- C10 witness: with ffill=False the null OBFR cell at position 1 keeps its
raw null, while ONRP_AGG_LIMIT still carries the forward-filled 500 at the
last row. -/
theorem claim_C10_witness :
    ((pull_fred fetchC3 20220101 20221231 false).col "OBFR")[1]?
      = (convColM fetchC3 20220101 20221231 "OBFR")[1]?
    ∧ ((pull_fred fetchC2 20130101 20131231 false).col "ONRP_AGG_LIMIT")[8]?
      = some (some 500) :=
  ⟨(claim_C10 fetchC3 20220101 20221231).2.1 "OBFR" (by decide) 1 (by decide),
   (claim_C10 fetchC2 20130101 20131231).2.2.2.2 8 8 (by decide) (by decide)
     (by decide)⟩

/-! ### Determinism: the builder and the ambient clock -/

/-- The ambient environment of a pull: the network responses and the
wall-clock date.  pd.Timestamp.today() is read only by the main block of the
script (line 177), which passes it to pull_fred as the explicit end_date;
pull_fred itself consumes only the fetched data and its arguments. -/
structure Env where
  fetch : String → List (Nat × Val)
  today : Nat

/-- pull_fred run inside an environment: it reads only the fetch component. -/
def pull_fred_env (env : Env) (s e : Nat) (b : Bool) : Frame :=
  pull_fred env.fetch s e b

/-- The end date computed by the main block at line 177: the wall-clock day. -/
def main_end_date (env : Env) : Nat := env.today

/-- C8: the panel builder is deterministic — two invocations whose fetched raw
data agree produce identical frames, whatever the ambient wall-clock date of
either invocation; the clock can enter only through the explicit end_date
argument supplied by the caller. -/
theorem claim_C8 (env₁ env₂ : Env) (s e : Nat) (b : Bool)
    (h : env₁.fetch = env₂.fetch) :
    pull_fred_env env₁ s e b = pull_fred_env env₂ s e b := by
  rw [pull_fred_env, pull_fred_env, h]

/-- C8 witness: identical data, wall clocks 76 years apart, identical output. -/
theorem claim_C8_witness :
    pull_fred_env ⟨fetchC1, 20240101⟩ 20220101 20221231 true
      = pull_fred_env ⟨fetchC1, 21000101⟩ 20220101 20221231 true :=
  claim_C8 ⟨fetchC1, 20240101⟩ ⟨fetchC1, 21000101⟩ 20220101 20221231 true rfl

end PullFred

namespace SpecModel

open PullFred

/-!
Modelled from the spec: the generalized panel builder `build_panel` of
spec section 4.1 exists only as a specification — src/ contains just its
hard-coded specialization pull_fred, which takes no raw_series, rules or
overrides and performs no input validation.  The records, the error taxonomy
and the eager validation below follow the words of sections 3, 4.1 and 7 of
the spec.
-/

/-- Modelled from the spec: one named series as retrieved from a source. -/
structure RawSeries where
  id : String
  index : List Nat
  values : List Val
deriving Repr, DecidableEq

/-- Modelled from the spec: a declared constant rescaling of one column. -/
structure UnitRule where
  column : String
  factor : ℚ
deriving Repr, DecidableEq

/-- Modelled from the spec: a column declared as carry-forward filled;
columns without a policy stay null on missing. -/
structure FillPolicy where
  column : String
deriving Repr, DecidableEq

/-- Modelled from the spec: derived column = primary else secondary. -/
structure FallbackRule where
  derived : String
  primary : String
  secondary : String
deriving Repr, DecidableEq

/-- Modelled from the spec: a manual (timestamp, column, value) correction. -/
structure Override where
  date : Nat
  column : String
  value : ℚ
deriving Repr, DecidableEq

/-- Modelled from the spec: the input-error taxonomy of section 7. -/
inductive InputError where
  | emptyInput
  | duplicateId (id : String)
  | invalidWindow
  | badSeriesIndex (id : String)
  | unknownColumn (rule : String) (column : String)
deriving Repr, DecidableEq

/-- The first id that occurs twice in the list, if any. -/
def firstDupId : List String → Option String
  | [] => none
  | x :: tl => if x ∈ tl then some x else firstDupId tl

/-- The column ids a rule may legally reference: raw series ids and
fallback-derived ids. -/
def knownCols (raw : List RawSeries) (fb : List FallbackRule) : List String :=
  raw.map RawSeries.id ++ fb.map FallbackRule.derived

/-- Every column reference of every rule, tagged with the rule kind. -/
def ruleColumnRefs (u : List UnitRule) (fp : List FillPolicy)
    (fb : List FallbackRule) (ov : List Override) : List (String × String) :=
  u.map (fun r => ("unit_rule", r.column))
    ++ fp.map (fun r => ("fill_policy", r.column))
    ++ fb.map (fun r => ("fallback_rule", r.primary))
    ++ fb.map (fun r => ("fallback_rule", r.secondary))
    ++ ov.map (fun r => ("override", r.column))

/-- The first rule reference to a column outside the known set, if any:
reported with the rule kind and the offending column. -/
def firstUnknownRef (known : List String) (refs : List (String × String)) :
    Option (String × String) :=
  refs.find? (fun p => !(known.contains p.2))

/-- A strictly increasing timestamp list (no duplicates, sorted). -/
def strictlyInc : List Nat → Bool
  | [] => true
  | [_] => true
  | a :: b :: tl => decide (a < b) && strictlyInc (b :: tl)

/-- The first raw series with a non-increasing index or misaligned values. -/
def firstBadSeries (raw : List RawSeries) : Option String :=
  (raw.find? (fun r =>
    !(strictlyInc r.index && r.values.length == r.index.length))).map RawSeries.id

/-- Window validity: when both bounds are given, start must not exceed end. -/
def validWindow : Option Nat → Option Nat → Bool
  | some ws, some we => decide (ws ≤ we)
  | _, _ => true

/-- Step 1 of the spec: the sorted union of all native indices. -/
def panelIdx (raw : List RawSeries) : List Nat :=
  (raw.foldr (fun r acc => r.index ++ acc) []).foldr insUnique []

/-- Step 1 of the spec: every series reindexed onto the unified index. -/
def alignFrame (raw : List RawSeries) : Frame :=
  ⟨panelIdx raw,
   raw.map (fun r => (r.id, reindex (panelIdx raw) (r.index.zip r.values)))⟩

/-- Step 2 of the spec: each unit rule rescales its column once. -/
def unitApply (u : List UnitRule) (f : Frame) : Frame :=
  u.foldl (fun g r => mapCol r.column (Option.map (fun q => q * r.factor)) g) f

/-- Step 4 of the spec: carry-forward fill of each declared column. -/
def fillApply (fp : List FillPolicy) (f : Frame) : Frame :=
  fp.foldl (fun g r => ffillCol r.column g) f

/-- Step 5 of the spec: each fallback column is the row-wise coalesce of its
primary and secondary columns, computed after fills. -/
def fallbackApply (fb : List FallbackRule) (f : Frame) : Frame :=
  fb.foldl (fun g r =>
    setCol r.derived (List.zipWith coalesce (g.col r.primary) (g.col r.secondary)) g) f

/-- Insert a new all-null row at the sorted position of a fresh timestamp. -/
def insertRowSorted (t : Nat) (f : Frame) : Frame :=
  let k := (f.index.takeWhile (fun u => decide (u < t))).length
  ⟨f.index.take k ++ [t] ++ f.index.drop k,
   f.cols.map (fun p => (p.1, p.2.take k ++ [none] ++ p.2.drop k))⟩

/-- Step 6 of the spec: apply one override — set the cell when the timestamp
is present, else insert a sorted all-null row first; then re-apply the
forward fill to the affected column when it has a carry-forward policy. -/
def applyOverride (fp : List FillPolicy) (f : Frame) (o : Override) : Frame :=
  let f1 := if o.date ∈ f.index then f else insertRowSorted o.date f
  let f2 := transCol o.column (setWhere f1.index o.date o.value) f1
  if o.column ∈ fp.map FillPolicy.column then ffillCol o.column f2 else f2

/-- Insertion into an override list sorted by ascending date. -/
def insOv (o : Override) : List Override → List Override
  | [] => [o]
  | x :: tl => if o.date ≤ x.date then o :: x :: tl else x :: insOv o tl

/-- Overrides in ascending timestamp order (step 6 of the spec). -/
def sortOverrides (ov : List Override) : List Override :=
  ov.foldr insOv []

/-- Step 7 of the spec: keep rows within the optional window bounds,
inclusive on both ends. -/
def clipOpt (ws we : Option Nat) (f : Frame) : Frame :=
  let pred := fun t =>
    (match ws with | some w => decide (w ≤ t) | none => true)
    && (match we with | some w => decide (t ≤ w) | none => true)
  let mask := f.index.map pred
  ⟨maskFilter mask f.index, f.cols.map (fun p => (p.1, maskFilter mask p.2))⟩

/-- The transformation of spec section 4.1, steps 1-7 in order. -/
def buildPipeline (raw : List RawSeries) (u : List UnitRule) (fp : List FillPolicy)
    (fb : List FallbackRule) (ov : List Override) (ws we : Option Nat) : Frame :=
  clipOpt ws we
    ((sortOverrides ov).foldl (applyOverride fp)
      (fallbackApply fb (fillApply fp (unitApply u (alignFrame raw)))))

/-- Modelled from the spec: build_panel validates its inputs eagerly — empty
input, duplicate ids, invalid window, malformed series, unknown column
references — and only then runs the transformation; a failing call returns an
InputError and no panel. -/
def build_panel (raw : List RawSeries) (unit_rules : List UnitRule)
    (fill_policies : List FillPolicy) (fallback_rules : List FallbackRule)
    (overrides : List Override) (window_start window_end : Option Nat) :
    Except InputError Frame :=
  if raw.isEmpty then .error .emptyInput
  else
    match firstDupId (raw.map RawSeries.id) with
    | some x => .error (.duplicateId x)
    | none =>
      if validWindow window_start window_end = false then .error .invalidWindow
      else
        match firstBadSeries raw with
        | some sid => .error (.badSeriesIndex sid)
        | none =>
          match firstUnknownRef (knownCols raw fallback_rules)
              (ruleColumnRefs unit_rules fill_policies fallback_rules overrides) with
          | some p => .error (.unknownColumn p.1 p.2)
          | none =>
            .ok (buildPipeline raw unit_rules fill_policies fallback_rules
              overrides window_start window_end)

/-- C6: build_panel rejects an empty raw-series set and duplicate series ids
with an InputError; the checks run before any transformation, so on failure
the call returns the error alone and never a panel. -/
theorem claim_C6 (raw : List RawSeries) (u : List UnitRule) (fp : List FillPolicy)
    (fb : List FallbackRule) (ov : List Override) (ws we : Option Nat) :
    (raw = [] → build_panel raw u fp fb ov ws we = .error .emptyInput)
    ∧ (∀ x, firstDupId (raw.map RawSeries.id) = some x →
        build_panel raw u fp fb ov ws we = .error (.duplicateId x)) := by
  constructor
  · intro h
    subst h
    rfl
  · intro x hx
    cases raw with
    | nil => simp [firstDupId] at hx
    | cons r tl =>
      rw [List.map_cons] at hx
      simp [build_panel, hx]

/-- C6 witness: the empty call errors, and two series sharing id X are
rejected with that id named. -/
theorem claim_C6_witness :
    build_panel [] [] [] [] [] none none = .error .emptyInput
    ∧ build_panel [⟨"X", [1], [some 1]⟩, ⟨"X", [2], [some 2]⟩] [] [] [] [] none none
      = .error (.duplicateId "X") :=
  ⟨(claim_C6 [] [] [] [] [] none none).1 rfl,
   (claim_C6 [⟨"X", [1], [some 1]⟩, ⟨"X", [2], [some 2]⟩] [] [] [] [] none none).2
     "X" (by decide)⟩

/-- C7: a rule referencing a column that is neither a raw series id nor a
fallback-derived id makes build_panel fail with an InputError naming the rule
kind and the offending column — never silently defaulted or replaced by an
all-null column. -/
theorem claim_C7 (raw : List RawSeries) (u : List UnitRule) (fp : List FillPolicy)
    (fb : List FallbackRule) (ov : List Override) (ws we : Option Nat)
    (hne : raw ≠ []) (hdup : firstDupId (raw.map RawSeries.id) = none)
    (hwin : validWindow ws we = true) (hbad : firstBadSeries raw = none)
    (rn cn : String)
    (hunk : firstUnknownRef (knownCols raw fb) (ruleColumnRefs u fp fb ov)
      = some (rn, cn)) :
    build_panel raw u fp fb ov ws we = .error (.unknownColumn rn cn) := by
  cases raw with
  | nil => exact absurd rfl hne
  | cons r tl =>
    rw [List.map_cons] at hdup
    simp [build_panel, hdup, hwin, hbad, hunk]

/-- C7 witness: an override referencing the unknown column B is rejected,
naming the override rule and column B. -/
theorem claim_C7_witness :
    build_panel [⟨"A", [1], [some 1]⟩] [] [] [] [⟨5, "B", 2⟩] none none
      = .error (.unknownColumn "override" "B") :=
  claim_C7 [⟨"A", [1], [some 1]⟩] [] [] [] [⟨5, "B", 2⟩] none none
    (by decide) (by decide) (by decide) (by decide) "override" "B" (by decide)

end SpecModel
